import Mathlib

/-!
Shallow embedding of the overseer task orchestrator (Rust) used to check the
frozen claims of its specification.  Identifiers and timestamps are abstracted
to naturals; SQL tables become lists; every stateful routine is modelled by
explicit state passing over a `Store`.  Rust loops and recursions are given a
fuel parameter; fuel exhaustion is reported through a dedicated
`OsError.nonTermination` marker that stands for the non-termination the Rust
code would exhibit on the same (cyclic) input.  All definitions are structural
recursions so that concrete runs reduce inside the kernel.
-/

namespace Overseer

/-- Lifecycle state derived from the task flags (types.rs, `LifecycleState`). -/
inductive LifecycleState where
  | pending
  | inProgress
  | completed
  | cancelled
  | archived
deriving DecidableEq

/-- Task record (types.rs `Task`).  The hydrate-only fields of the Rust struct
(depth, effectively_blocked, context_chain, inherited learnings and the
blocked_by/blocks adjacency) are not stored: they are recomputed by the
service layer, exactly as the repository layer leaves them unset. -/
structure Task where
  id : Nat
  parentId : Option Nat
  description : String
  context : String
  result : Option String
  priority : Int
  completed : Bool
  completedAt : Option Nat
  createdAt : Nat
  updatedAt : Nat
  startedAt : Option Nat
  commitSha : Option String
  bookmark : Option String
  startCommit : Option String
  cancelled : Bool
  cancelledAt : Option Nat
  archived : Bool
  archivedAt : Option Nat
deriving DecidableEq

/-- Learning record (learning_repo.rs `Learning`). -/
structure Learning where
  id : Nat
  taskId : Nat
  content : String
  sourceTaskId : Option Nat
  createdAt : Nat
deriving DecidableEq

/-- Relational store: tasks, blocker edges `(task_id, blocker_id)`, learnings
(schema.rs tables `tasks`, `task_blockers`, `learnings`). -/
structure Store where
  tasks : List Task
  blockers : List (Nat × Nat)
  learnings : List Learning
deriving DecidableEq

/-- VCS error surface (vcs/backend.rs `VcsError`). -/
inductive VcsError where
  | notARepository
  | noWorkingCopy
  | operationFailed (msg : String)
  | nothingToCommit
  | bookmarkNotFound (name : String)
  | bookmarkExists (name : String)
  | targetNotFound (name : String)
  | dirtyWorkingCopy
  | rebaseConflict
  | jjErr (msg : String)
  | gitErr (msg : String)
  | ioErr
deriving DecidableEq

/-- Reason carried by the NotNextReady error (error.rs `NotReadyReason`). -/
inductive NotReadyReason where
  | hasIncompleteChildren
  | blocked (blockers : List Nat)
  | noReadyTasksInSubtree
deriving DecidableEq

/-- Error surface (error.rs `OsError`).  The variants used by the core
services that are absent from the given error.rs revision are taken from
their construction sites in task_service.rs / workflow_service.rs; purely
diagnostic message strings are elided.  `nonTermination` is the embedding's
marker for a Rust loop that would never terminate (cyclic parent chains). -/
inductive OsError where
  | taskNotFound (id : Nat)
  | parentNotFound (id : Nat)
  | blockerNotFound (id : Nat)
  | learningNotFound (id : Nat)
  | maxDepthExceeded
  | parentCycle
  | blockerCycle
  | blockerCycleDetected (chain : List Nat)
  | noStartableTask (requested : Nat)
  | notNextReady (requested : Nat) (nextReady : Option Nat) (reason : NotReadyReason)
  | invalidBlockerRelation (taskId : Nat) (blockerId : Nat)
  | pendingChildren
  | invalidPriority (p : Int)
  | cannotAttachChildToInactiveParent (parentId : Nat) (state : LifecycleState)
  | cannotReopenActive (state : LifecycleState)
  | cannotReopenCancelled
  | cannotCancelCompleted
  | alreadyCancelled
  | cannotArchiveActive
  | alreadyArchived
  | cannotModifyArchived
  | cannotStartCompleted
  | cannotStartCancelled
  | cannotCompleteArchived
  | cannotCompleteCancelled
  | notARepository
  | dirtyWorkingCopy
  | vcs (e : VcsError)
  | nonTermination
deriving DecidableEq

deriving instance DecidableEq for Except

/-- Conversion of VCS errors (error.rs `impl From<VcsError> for OsError`). -/
def osErrorOfVcs : VcsError → OsError
  | .notARepository => .notARepository
  | .dirtyWorkingCopy => .dirtyWorkingCopy
  | e => .vcs e

/-- Derived lifecycle state with precedence archived over cancelled over
completed over started over pending (types.rs `Task::lifecycle_state`). -/
def lifecycleState (t : Task) : LifecycleState :=
  if t.archived then .archived
  else if t.cancelled then .cancelled
  else if t.completed then .completed
  else if t.startedAt.isSome then .inProgress
  else .pending

/-- Task is active for work (types.rs `Task::is_active_for_work`). -/
def isActiveForWork (t : Task) : Bool :=
  lifecycleState t = .pending ∨ lifecycleState t = .inProgress

/-- Task is finished for the hierarchy: completed or cancelled
(types.rs `Task::is_finished_for_hierarchy`). -/
def isFinishedForHierarchy (t : Task) : Bool :=
  t.completed || t.cancelled

/-- Task satisfies a blocker edge: completed and not cancelled
(types.rs `Task::satisfies_blocker`). -/
def satisfiesBlocker (t : Task) : Bool :=
  t.completed && !t.cancelled

/-! Repository layer (db/task_repo.rs). -/

/-- Row lookup by primary key (task_repo.rs `get_task`). -/
def getTask (s : Store) (id : Nat) : Option Task :=
  s.tasks.find? (fun t => t.id == id)

/-- Existence check (task_repo.rs `task_exists`). -/
def taskExists (s : Store) (id : Nat) : Bool :=
  (getTask s id).isSome

/-- Blocker ids of a task (task_repo.rs `get_blockers`). -/
def getBlockers (s : Store) (taskId : Nat) : List Nat :=
  (s.blockers.filter (fun e => e.1 == taskId)).map (fun e => e.2)

/-- Tasks blocked by a given blocker (task_repo.rs `get_blocking`). -/
def getBlocking (s : Store) (blockerId : Nat) : List Nat :=
  (s.blockers.filter (fun e => e.2 == blockerId)).map (fun e => e.1)

/-- Pending-children test as implemented: counts children with
`completed = 0`, regardless of the cancelled flag
(task_repo.rs `has_pending_children`). -/
def hasPendingChildren (s : Store) (id : Nat) : Bool :=
  s.tasks.any (fun t => t.parentId == some id && !t.completed)

/-- Conservative completion probe: false for a missing task
(task_repo.rs `is_completed` / `is_task_completed`). -/
def isTaskCompleted (s : Store) (id : Nat) : Bool :=
  match getTask s id with
  | some t => t.completed
  | none => false

/-- Modelled from the spec: `is_task_satisfies_blocker` is called throughout
task_service.rs but its definition is missing from the given task_repo.rs
revision.  Per the spec (`satisfies_blocker = completed ∧ ¬cancelled`) and the
call-site comments, it returns whether the referenced task satisfies blockers
and is conservatively false for a missing task. -/
def isTaskSatisfiesBlockerRepo (s : Store) (id : Nat) : Bool :=
  match getTask s id with
  | some t => satisfiesBlocker t
  | none => false

/-- Comparison realising the SQL clause of task_repo.rs `list_roots` and
`get_children_ordered`: ORDER BY priority DESC, created_at ASC, id ASC. -/
def repoOrderLe (a b : Task) : Bool :=
  if a.priority ≠ b.priority then decide (b.priority < a.priority)
  else if a.createdAt ≠ b.createdAt then decide (a.createdAt < b.createdAt)
  else decide (a.id ≤ b.id)

/-- Ordered insertion used to realise a SQL ORDER BY over a total order. -/
def insertSorted (le : Task → Task → Bool) (t : Task) : List Task → List Task
  | [] => [t]
  | x :: xs => if le t x then t :: x :: xs else x :: insertSorted le t xs

/-- Insertion sort realising a SQL ORDER BY over a total order. -/
def sortTasksBy (le : Task → Task → Bool) : List Task → List Task
  | [] => []
  | x :: xs => insertSorted le x (sortTasksBy le xs)

/-- Root tasks in the repository's order: priority DESC, created_at ASC,
id ASC (task_repo.rs `list_roots`). -/
def listRoots (s : Store) : List Task :=
  sortTasksBy repoOrderLe (s.tasks.filter (fun t => t.parentId == none))

/-- Children in the repository's order: priority DESC, created_at ASC, id ASC
(task_repo.rs `get_children_ordered`). -/
def getChildrenOrdered (s : Store) (parentId : Nat) : List Task :=
  sortTasksBy repoOrderLe (s.tasks.filter (fun t => t.parentId == some parentId))

/-- Children without an ordering clause (task_repo.rs `get_children`). -/
def getChildren (s : Store) (parentId : Nat) : List Task :=
  s.tasks.filter (fun t => t.parentId == some parentId)

/-- Depth by walking the parent chain; a missing row ends the walk exactly as
the `.optional()?.flatten()` of the Rust does (task_repo.rs `get_task_depth`).
Fuel guards the loop, which the Rust runs unboundedly. -/
def getTaskDepthAux (s : Store) : Nat → Nat → Nat → Except OsError Nat
  | 0, _, _ => .error .nonTermination
  | fuel + 1, id, acc =>
    match getTask s id with
    | none => .ok acc
    | some t =>
      match t.parentId with
      | none => .ok acc
      | some p => getTaskDepthAux s fuel p (acc + 1)

/-- Depth of a task (task_repo.rs `get_task_depth`). -/
def getTaskDepth (fuel : Nat) (s : Store) (id : Nat) : Except OsError Nat :=
  getTaskDepthAux s fuel id 0

/-- Update of every row matching an id, as a SQL UPDATE ... WHERE id does. -/
def mapTask (s : Store) (id : Nat) (f : Task → Task) : Store :=
  { s with tasks := s.tasks.map (fun t => if t.id == id then f t else t) }

/-- Start writer: sets started_at and updated_at (task_repo.rs `start_task`). -/
def startTaskRepo (now : Nat) (s : Store) (id : Nat) : Store :=
  mapTask s id (fun t => { t with startedAt := some now, updatedAt := now })

/-- Completion writer: sets completed, completed_at, result, commit_sha and
updated_at (task_repo.rs `complete_task`). -/
def completeTaskRepo (now : Nat) (s : Store) (id : Nat)
    (result : Option String) (sha : Option String) : Store :=
  mapTask s id (fun t =>
    { t with completed := true, completedAt := some now,
             result := result, commitSha := sha, updatedAt := now })

/-- Reopen writer: clears completed and completed_at
(task_repo.rs `reopen_task`). -/
def reopenTaskRepo (now : Nat) (s : Store) (id : Nat) : Store :=
  mapTask s id (fun t =>
    { t with completed := false, completedAt := none, updatedAt := now })

/-- Bookmark writer (task_repo.rs `set_bookmark`). -/
def setBookmarkRepo (now : Nat) (s : Store) (id : Nat) (b : String) : Store :=
  mapTask s id (fun t => { t with bookmark := some b, updatedAt := now })

/-- Start-commit writer (task_repo.rs `set_start_commit`). -/
def setStartCommitRepo (now : Nat) (s : Store) (id : Nat) (c : String) : Store :=
  mapTask s id (fun t => { t with startCommit := some c, updatedAt := now })

/-- Modelled from the spec: `clear_bookmark` is called from
workflow_service.rs but missing from the given task_repo.rs revision.  Per the
spec's bookmark lifecycle, completion clears the bookmark field. -/
def clearBookmarkRepo (now : Nat) (s : Store) (id : Nat) : Store :=
  mapTask s id (fun t => { t with bookmark := none, updatedAt := now })

/-- Learnings attached to a task, i.e. the rows of the learnings table with
the given task id (learning_repo.rs `list_learnings`). -/
def learningsOf (s : Store) (taskId : Nat) : List Learning :=
  s.learnings.filter (fun l => l.taskId == taskId)

/-- Fresh learning id allocator abstracting `LearningId::new()`. -/
def freshLearningId (s : Store) : Nat :=
  (s.learnings.map (fun l => l.id)).foldr max 0 + 1

/-- Learning insertion (learning_repo.rs `add_learning`). -/
def addLearningRepo (now : Nat) (s : Store) (taskId : Nat) (content : String)
    (source : Option Nat) : Store :=
  { s with learnings := s.learnings ++
      [{ id := freshLearningId s, taskId := taskId, content := content,
         sourceTaskId := source, createdAt := now }] }

/-- Duplicate test for the unique index on (task_id, origin, content)
(schema.rs `idx_learnings_unique`). -/
def hasLearningTriple (s : Store) (taskId : Nat) (source : Option Nat)
    (content : String) : Bool :=
  s.learnings.any (fun l =>
    l.taskId == taskId && l.sourceTaskId == source && l.content == content)

/-- Modelled from the spec: `bubble_learnings` is called from task_service.rs
but missing from the given learning_repo.rs revision.  Per spec section 4.6,
every learning on the source task is copied to the target preserving its
origin, and the unique index on (task_id, origin_task_id, content) makes the
copy a no-op for duplicates. -/
def bubbleLearnings (now : Nat) (s : Store) (fromId toId : Nat) : Store :=
  (learningsOf s fromId).foldl
    (fun acc l =>
      if hasLearningTriple acc toId l.sourceTaskId l.content then acc
      else { acc with learnings := acc.learnings ++
              [{ id := freshLearningId acc, taskId := toId, content := l.content,
                 sourceTaskId := l.sourceTaskId, createdAt := now }] })
    s

/-! Service layer (core/task_service.rs). -/

/-- Whether some blocker edge of the given task is unsatisfied
(the per-task loop bodies of task_service.rs `is_effectively_blocked`). -/
def anyUnsatisfiedBlocker (s : Store) (id : Nat) : Bool :=
  (getBlockers s id).any (fun b => !isTaskSatisfiesBlockerRepo s b)

/-- Ancestor walk of task_service.rs `is_effectively_blocked`: each ancestor's
blockers are checked; a missing ancestor raises TaskNotFound. -/
def ancestorsBlockedE (s : Store) : Nat → Option Nat → Except OsError Bool
  | _, none => .ok false
  | 0, some _ => .error .nonTermination
  | fuel + 1, some pid =>
    match getTask s pid with
    | none => .error (.taskNotFound pid)
    | some parent =>
      if anyUnsatisfiedBlocker s parent.id then .ok true
      else ancestorsBlockedE s fuel parent.parentId

/-- Effective blocking: the task or any ancestor has an unsatisfied blocker
(task_service.rs `is_effectively_blocked`). -/
def isEffectivelyBlockedE (fuel : Nat) (s : Store) (t : Task) : Except OsError Bool :=
  if anyUnsatisfiedBlocker s t.id then .ok true
  else ancestorsBlockedE s fuel t.parentId

/-- Well-formedness of a parent chain: every ancestor row exists and the chain
ends within the given fuel.  This is the standing database invariant (foreign
keys plus the service's cycle checks) under which the hydration probes of the
Rust cannot fail. -/
def parentChainOk (s : Store) : Nat → Option Nat → Bool
  | _, none => true
  | 0, some _ => false
  | fuel + 1, some pid =>
    match getTask s pid with
    | none => false
    | some p => parentChainOk s fuel p.parentId

/-- Chain well-formedness rooted at a task. -/
def taskChainOk (fuel : Nat) (s : Store) (id : Nat) : Bool :=
  match getTask s id with
  | none => false
  | some t => parentChainOk s fuel t.parentId

/-- Ancestor walk of task_service.rs `is_ancestor`: follows parent links from
the queried task; a missing row ends the walk. -/
def isAncestorWalk (s : Store) (anc : Nat) : Nat → Option Nat → Except OsError Bool
  | _, none => .ok false
  | 0, some _ => .error .nonTermination
  | fuel + 1, some cid =>
    if cid == anc then .ok true
    else isAncestorWalk s anc fuel ((getTask s cid).bind (fun t => t.parentId))

/-- Whether `anc` is a strict ancestor of `taskId`
(task_service.rs `is_ancestor`). -/
def isAncestorE (fuel : Nat) (s : Store) (anc taskId : Nat) : Except OsError Bool :=
  isAncestorWalk s anc fuel ((getTask s taskId).bind (fun t => t.parentId))

/-- Task as returned by the service layer: the stored row together with the
hydrated depth and effective blocking (task_service.rs `get`). -/
structure HydratedTask where
  task : Task
  depth : Nat
  effectivelyBlocked : Bool
deriving DecidableEq

/-- Service fetch with hydration (task_service.rs `get`; the context chain and
inherited learnings it also assembles are read-only and error-free, hence not
part of the state model). -/
def serviceGet (fuel : Nat) (s : Store) (id : Nat) : Except OsError HydratedTask :=
  match getTask s id with
  | none => .error (.taskNotFound id)
  | some t =>
    match getTaskDepthAux s fuel id 0 with
    | .error e => .error e
    | .ok d =>
      match isEffectivelyBlockedE fuel s t with
      | .error e => .error e
      | .ok eb => .ok ⟨t, d, eb⟩

/-- Repo-level start with hydration (task_service.rs `start`): existence
check, the started_at write, then the same fetch-and-hydrate as `get`. -/
def serviceStart (fuel now : Nat) (s : Store) (id : Nat) :
    Except OsError HydratedTask × Store :=
  if taskExists s id then
    (serviceGet fuel (startTaskRepo now s id) id, startTaskRepo now s id)
  else (.error (.taskNotFound id), s)

/-- Create input (types.rs `CreateTaskInput`). -/
structure CreateTaskInput where
  description : String
  context : Option String
  parentId : Option Nat
  priority : Option Int
  blockedBy : List Nat
deriving DecidableEq

/-- Priority validation of task_service.rs `create` and `update`: a supplied
priority must lie in 0..=2. -/
def validatePriority : Option Int → Except OsError Unit
  | none => .ok ()
  | some p => if 0 ≤ p ∧ p ≤ 2 then .ok () else .error (.invalidPriority p)

/-- Parent validation of task_service.rs `create`: the parent must exist, be
active for work, and have depth below the maximum of 2. -/
def checkParentForCreate (fuel : Nat) (s : Store) : Option Nat → Except OsError Unit
  | none => .ok ()
  | some pid =>
    match getTask s pid with
    | none => .error (.parentNotFound pid)
    | some parent =>
      if !isActiveForWork parent then
        .error (.cannotAttachChildToInactiveParent pid (lifecycleState parent))
      else
        match getTaskDepthAux s fuel pid 0 with
        | .error e => .error e
        | .ok d => if d ≥ 2 then .error .maxDepthExceeded else .ok ()

/-- Blocker validation of task_service.rs `create`: each blocker must exist
and, when a parent is given, must be neither the parent nor an ancestor of
it.  The Rust uses a placeholder id for the not-yet-created task in the
error value; the embedding passes the id the task will receive. -/
def checkBlockersForCreate (fuel : Nat) (s : Store) (newId : Nat)
    (parent? : Option Nat) : List Nat → Except OsError Unit
  | [] => .ok ()
  | b :: bs =>
    if !taskExists s b then .error (.blockerNotFound b)
    else
      match parent? with
      | none => checkBlockersForCreate fuel s newId parent? bs
      | some pid =>
        if b == pid then .error (.invalidBlockerRelation newId b)
        else
          match isAncestorE fuel s b pid with
          | .error e => .error e
          | .ok true => .error (.invalidBlockerRelation newId b)
          | .ok false => checkBlockersForCreate fuel s newId parent? bs

/-- Row insertion of task_repo.rs `create_task`: note the stored priority
defaults to 3 when none is supplied (`input.priority.unwrap_or(3)`). -/
def createTaskRepo (now newId : Nat) (s : Store) (input : CreateTaskInput) : Store :=
  let t : Task :=
    { id := newId, parentId := input.parentId, description := input.description,
      context := input.context.getD "", result := none,
      priority := input.priority.getD 3,
      completed := false, completedAt := none,
      createdAt := now, updatedAt := now, startedAt := none,
      commitSha := none, bookmark := none, startCommit := none,
      cancelled := false, cancelledAt := none, archived := false,
      archivedAt := none }
  let s1 : Store := { s with tasks := s.tasks ++ [t] }
  input.blockedBy.foldl
    (fun acc b => { acc with blockers := acc.blockers ++ [(newId, b)] }) s1

/-- Service create (task_service.rs `create`): validates priority, parent and
blockers, persists, and returns the hydrated task. -/
def serviceCreate (fuel now newId : Nat) (s : Store) (input : CreateTaskInput) :
    Except OsError HydratedTask × Store :=
  match validatePriority input.priority with
  | .error e => (.error e, s)
  | .ok _ =>
    match checkParentForCreate fuel s input.parentId with
    | .error e => (.error e, s)
    | .ok _ =>
      match checkBlockersForCreate fuel s newId input.parentId input.blockedBy with
      | .error e => (.error e, s)
      | .ok _ =>
        let s1 := createTaskRepo now newId s input
        match serviceGet fuel s1 newId with
        | .error e => (.error e, s1)
        | .ok h => (.ok h, s1)

/-- Learning insertion loop of task_service.rs `complete_with_learnings`:
each provided learning is attached to the task with no explicit origin. -/
def addOwnLearnings (now : Nat) (id : Nat) : Store → List String → Store
  | s, [] => s
  | s, c :: cs => addOwnLearnings now id (addLearningRepo now s id c none) cs

/-- Service completion (task_service.rs `complete_with_learnings`): existence
and pending-children guards, learning insertion, best-effort commit sha,
completion write, learning bubbling to the immediate parent, hydration.
`probeSha` stands for the environment probe `get_current_commit_sha`. -/
def serviceCompleteWithLearnings (fuel now : Nat) (probeSha : Option String)
    (s : Store) (id : Nat) (result : Option String) (learnings : List String) :
    Except OsError HydratedTask × Store :=
  if !taskExists s id then (.error (.taskNotFound id), s)
  else if hasPendingChildren s id then (.error .pendingChildren, s)
  else
    let s1 := addOwnLearnings now id s learnings
    let s2 := completeTaskRepo now s1 id result probeSha
    match getTask s2 id with
    | none => (.error (.taskNotFound id), s2)
    | some t =>
      let s3 :=
        match t.parentId with
        | some pid => bubbleLearnings now s2 id pid
        | none => s2
      (serviceGet fuel s3 id, s3)

/-- Service reopen (task_service.rs `reopen`): valid only from the derived
Completed state; every other state maps to its specific error. -/
def serviceReopen (fuel now : Nat) (s : Store) (id : Nat) :
    Except OsError HydratedTask × Store :=
  match getTask s id with
  | none => (.error (.taskNotFound id), s)
  | some t =>
    match lifecycleState t with
    | .completed =>
      let s1 := reopenTaskRepo now s id
      match getTask s1 id with
      | none => (.error (.taskNotFound id), s1)
      | some t1 =>
        match getTaskDepthAux s1 fuel id 0 with
        | .error e => (.error e, s1)
        | .ok d =>
          match isEffectivelyBlockedE fuel s1 t1 with
          | .error e => (.error e, s1)
          | .ok eb => (.ok ⟨t1, d, eb⟩, s1)
    | .cancelled => (.error .cannotReopenCancelled, s)
    | .archived => (.error .cannotModifyArchived, s)
    | .pending => (.error (.cannotReopenActive .pending), s)
    | .inProgress => (.error (.cannotReopenActive .inProgress), s)

/-- Whether every blocker edge of a task is satisfied (the `task_unblocked`
computation of task_service.rs `find_next_ready_under`). -/
def ownBlockersSatisfied (s : Store) (id : Nat) : Bool :=
  (getBlockers s id).all (fun b => isTaskSatisfiesBlockerRepo s b)

/-- Readiness DFS (task_service.rs `find_next_ready_under` together with the
sibling/root iteration of its callers).  The node at the head of the list is
resolved exactly as the Rust routine does: inactive nodes yield nothing, a
leaf is returned when effectively unblocked, otherwise the children are
searched in `get_children_ordered` sequence, and a node all of whose children
are finished is promoted to a leaf.  The tail of the list receives the same
inherited `ancestors unblocked` flag, matching the caller's loops. -/
def findNextReadyList (s : Store) : Nat → List Task → Bool → Except OsError (Option Nat)
  | 0, _, _ => .error .nonTermination
  | _ + 1, [], _ => .ok none
  | fuel + 1, t :: rest, au =>
    if !isActiveForWork t then findNextReadyList s fuel rest au
    else
      let eu := au && ownBlockersSatisfied s t.id
      let children := getChildrenOrdered s t.id
      if children.isEmpty then
        if eu then .ok (some t.id) else findNextReadyList s fuel rest au
      else
        let allComplete := children.all isFinishedForHierarchy
        match findNextReadyList s fuel children eu with
        | .error e => .error e
        | .ok (some r) => .ok (some r)
        | .ok none =>
          if allComplete && eu then .ok (some t.id)
          else findNextReadyList s fuel rest au

/-- DFS from a single root (task_service.rs `find_next_ready_under`). -/
def findNextReadyUnder (s : Store) (fuel : Nat) (t : Task) (au : Bool) :
    Except OsError (Option Nat) :=
  findNextReadyList s fuel [t] au

/-- Next-ready resolution (task_service.rs `next_ready`): from a requested
root after hydrating it, or across all roots in `list_roots` order. -/
def nextReady (fuel : Nat) (s : Store) : Option Nat → Except OsError (Option Nat)
  | some id =>
    match serviceGet fuel s id with
    | .error e => .error e
    | .ok h => findNextReadyUnder s fuel h.task true
  | none => findNextReadyList s fuel (listRoots s) true

/-! Workflow layer (core/workflow_service.rs).  The VCS backend is modelled
as a record of deterministic responses; the operations a run performs on it
are additionally logged so that frame properties about VCS usage can be
stated. -/

/-- Deterministic model of a `VcsBackend` (vcs/backend.rs): each operation's
outcome, plus the best-effort commit-sha probe of
task_service.rs `get_current_commit_sha`. -/
structure VcsModel where
  commitRes : String → Except VcsError String
  checkoutRes : String → Except VcsError Unit
  createBookmarkRes : String → Except VcsError Unit
  deleteBookmarkRes : String → Except VcsError Unit
  currentCommitIdRes : Except VcsError String
  probeSha : Option String

/-- VCS operations a workflow run may perform. -/
inductive VcsOp where
  | commit (msg : String)
  | checkout (target : String)
  | createBookmark (name : String)
  | deleteBookmark (name : String)
  | currentCommitId
deriving DecidableEq

/-- Bookmark creation with BookmarkExists tolerated (the match on
`self.vcs.create_bookmark` in workflow_service.rs `start`). -/
def createBookmarkTolerant (vcs : VcsModel) (name : String) :
    Except VcsError Unit :=
  match vcs.createBookmarkRes name with
  | .ok _ => .ok ()
  | .error (.bookmarkExists _) => .ok ()
  | .error e => .error e

/-- Commit with NothingToCommit tolerated (the match on `self.vcs.commit` in
workflow_service.rs `complete_with_learnings` and the milestone path). -/
def commitTolerant (vcs : VcsModel) (msg : String) : Except OsError Unit :=
  match vcs.commitRes msg with
  | .ok _ => .ok ()
  | .error .nothingToCommit => .ok ()
  | .error e => .error (osErrorOfVcs e)

/-- Commit message of the ordinary completion path. -/
def completeMsg (t : Task) (result : Option String) : String :=
  "Complete: " ++ t.description ++ "\n\n" ++ result.getD ""

/-- Commit message of the milestone completion path. -/
def milestoneMsg (t : Task) (result : Option String) : String :=
  "Milestone: " ++ t.description ++ "\n\n" ++ result.getD ""

/-- Modelled from the spec: `get_all_descendants` is called from
task_service.rs and workflow_service.rs but missing from the given
task_repo.rs revision.  It returns every task below the given one through
parent edges; fuel bounds the recursion the Rust runs unboundedly. -/
def getAllDescendants (s : Store) : Nat → Nat → List Task
  | 0, _ => []
  | fuel + 1, id =>
    (getChildren s id).foldl
      (fun acc c => acc ++ [c] ++ getAllDescendants s fuel c.id) []

/-- Best-effort descendant bookmark cleanup of the milestone completion path:
failures to delete are logged and skipped; a successful deletion clears the
bookmark field in the store. -/
def deleteDescendantBookmarks (vcs : VcsModel) (now : Nat) :
    Store → List Task → Store
  | s, [] => s
  | s, d :: ds =>
    let s1 :=
      match d.bookmark with
      | none => s
      | some bm =>
        match vcs.deleteBookmarkRes bm with
        | .error _ => s
        | .ok _ => clearBookmarkRepo now s d.id
    deleteDescendantBookmarks vcs now s1 ds

/-- Milestone completion (workflow_service.rs
`complete_milestone_with_learnings`): lifecycle guards, idempotent return on
an already-completed task, VCS-first commit, service completion, and
best-effort cleanup of every descendant bookmark. -/
def completeMilestone (vcs : VcsModel) (fuel now : Nat) (s : Store) (id : Nat)
    (result : Option String) (learnings : List String) :
    Except OsError Task × Store :=
  match serviceGet fuel s id with
  | .error e => (.error e, s)
  | .ok h =>
    if h.task.archived then (.error .cannotCompleteArchived, s)
    else if h.task.cancelled then (.error .cannotCompleteCancelled, s)
    else if h.task.completed then (.ok h.task, s)
    else if h.depth ≠ 0 then
      match commitTolerant vcs (completeMsg h.task result) with
      | .error e => (.error e, s)
      | .ok _ =>
        match serviceCompleteWithLearnings fuel now vcs.probeSha s id result learnings with
        | (.error e, s1) => (.error e, s1)
        | (.ok ht, s1) => (.ok ht.task, s1)
    else
      match commitTolerant vcs (milestoneMsg h.task result) with
      | .error e => (.error e, s)
      | .ok _ =>
        match serviceCompleteWithLearnings fuel now vcs.probeSha s id result learnings with
        | (.error e, s1) => (.error e, s1)
        | (.ok ht, s1) =>
          let descendants := getAllDescendants s1 fuel id
          let target? : Option String :=
            match h.task.startCommit with
            | some c => some c
            | none =>
              match descendants.findSome? (fun d => d.startCommit) with
              | some c => some c
              | none =>
                match vcs.currentCommitIdRes with
                | .ok c => some c
                | .error _ => none
          match target? with
          | none => (.ok ht.task, s1)
          | some target =>
            match vcs.checkoutRes target with
            | .error _ => (.ok ht.task, s1)
            | .ok _ =>
              let s2 := deleteDescendantBookmarks vcs now s1 descendants
              let s3 :=
                match h.task.bookmark with
                | none => s2
                | some bm =>
                  match vcs.deleteBookmarkRes bm with
                  | .error _ => s2
                  | .ok _ => clearBookmarkRepo now s2 id
              (.ok ht.task, s3)

/-- Parent auto-completion dispatch inside the bubble-up loop
(workflow_service.rs `bubble_up_completion`): depth-0 parents go through the
milestone path, others through the plain service completion. -/
def completeParentStep (vcs : VcsModel) (fuel now : Nat) (s : Store) (pid : Nat)
    (pdepth : Nat) : Except OsError Unit × Store :=
  if pdepth == 0 then
    match completeMilestone vcs fuel now s pid none [] with
    | (.error e, s') => (.error e, s')
    | (.ok _, s') => (.ok (), s')
  else
    match serviceCompleteWithLearnings fuel now vcs.probeSha s pid none [] with
    | (.error e, s') => (.error e, s')
    | (.ok _, s') => (.ok (), s')

/-- Upward auto-completion (workflow_service.rs `bubble_up_completion`):
walk the parent chain; stop at the forest root, at a parent with pending
children, or at an effectively blocked parent; otherwise complete the parent
and continue from it. -/
def bubbleUpCompletion (vcs : VcsModel) (now : Nat) :
    Nat → Store → Nat → Except OsError Unit × Store
  | 0, s, _ => (.error .nonTermination, s)
  | fuel + 1, s, id =>
    match getTask s id with
    | none => (.error (.taskNotFound id), s)
    | some cur =>
      match cur.parentId with
      | none => (.ok (), s)
      | some pid =>
        if hasPendingChildren s pid then (.ok (), s)
        else
          match serviceGet fuel s pid with
          | .error e => (.error e, s)
          | .ok hp =>
            if hp.effectivelyBlocked then (.ok (), s)
            else
              match completeParentStep vcs fuel now s pid hp.depth with
              | (.error e, s2) => (.error e, s2)
              | (.ok _, s2) => bubbleUpCompletion vcs now fuel s2 pid

/-- Best-effort branch cleanup of the ordinary completion path
(workflow_service.rs `complete_with_learnings`, step 3): checkout the start
commit or the current head, then delete the bookmark and clear the field;
any failure is logged and leaves the store untouched. -/
def cleanupTaskBookmark (vcs : VcsModel) (now : Nat) (s : Store) (id : Nat)
    (t : Task) : Store :=
  match t.bookmark with
  | none => s
  | some bm =>
    let target? : Option String :=
      match t.startCommit with
      | some c => some c
      | none =>
        match vcs.currentCommitIdRes with
        | .ok c => some c
        | .error _ => none
    match target? with
    | none => s
    | some target =>
      match vcs.checkoutRes target with
      | .error _ => s
      | .ok _ =>
        match vcs.deleteBookmarkRes bm with
        | .error _ => s
        | .ok _ => clearBookmarkRepo now s id

/-- Workflow completion (workflow_service.rs `complete_with_learnings`):
lifecycle guards, idempotent return, milestone delegation, VCS-first commit,
service completion, best-effort bookmark cleanup, and bubble-up. -/
def workflowComplete (vcs : VcsModel) (fuel now : Nat) (s : Store) (id : Nat)
    (result : Option String) (learnings : List String) :
    Except OsError Task × Store :=
  match serviceGet fuel s id with
  | .error e => (.error e, s)
  | .ok h =>
    if h.task.archived then (.error .cannotCompleteArchived, s)
    else if h.task.cancelled then (.error .cannotCompleteCancelled, s)
    else if h.task.completed then (.ok h.task, s)
    else if h.depth == 0 then completeMilestone vcs fuel now s id result learnings
    else
      match commitTolerant vcs (completeMsg h.task result) with
      | .error e => (.error e, s)
      | .ok _ =>
        match serviceCompleteWithLearnings fuel now vcs.probeSha s id result learnings with
        | (.error e, s1) => (.error e, s1)
        | (.ok ht, s1) =>
          let s2 := cleanupTaskBookmark vcs now s1 id h.task
          match bubbleUpCompletion vcs now fuel s2 id with
          | (.error e, s3) => (.error e, s3)
          | (.ok _, s3) => (.ok ht.task, s3)

/-- Start validation (workflow_service.rs `validate_start_target`): a blocked
task is rejected with the unsatisfied blockers and a global suggestion;
otherwise the task must be exactly the next-ready of its own subtree. -/
def validateStartTarget (fuel : Nat) (s : Store) (id : Nat) (h : HydratedTask) :
    Except OsError Unit :=
  match isEffectivelyBlockedE fuel s h.task with
  | .error e => .error e
  | .ok true =>
    let blockers := (getBlockers s id).filter (fun b => !isTaskCompleted s b)
    match nextReady fuel s none with
    | .error e => .error e
    | .ok nr => .error (.notNextReady id nr (.blocked blockers))
  | .ok false =>
    match nextReady fuel s (some id) with
    | .error e => .error e
    | .ok (some r) =>
      if r == id then .ok ()
      else
        match serviceGet fuel s r with
        | .error e => .error e
        | .ok _ => .error (.notNextReady id (some r) .hasIncompleteChildren)
    | .ok none => .error (.notNextReady id none .noReadyTasksInSubtree)

/-- Upward start-time propagation (workflow_service.rs
`bubble_start_to_ancestors`): every ancestor lacking started_at is started
through the service; bookmark and start commit are not copied upward. -/
def bubbleStartToAncestors (now : Nat) :
    Nat → Store → Nat → Except OsError Unit × Store
  | 0, s, _ => (.error .nonTermination, s)
  | fuel + 1, s, id =>
    match getTask s id with
    | none => (.error (.taskNotFound id), s)
    | some cur =>
      match cur.parentId with
      | none => (.ok (), s)
      | some pid =>
        match getTask s pid with
        | none => (.error (.taskNotFound pid), s)
        | some parent =>
          if parent.startedAt.isNone then
            match serviceStart fuel now s pid with
            | (.error e, s') => (.error e, s')
            | (.ok _, s') => bubbleStartToAncestors now fuel s' pid
          else bubbleStartToAncestors now fuel s pid

/-- Tail of a successful workflow start: ancestor stamping followed by the
final hydrated fetch. -/
def workflowStartTail (fuel now : Nat) (s : Store) (id : Nat)
    (ops : List VcsOp) : Except OsError HydratedTask × Store × List VcsOp :=
  match bubbleStartToAncestors now fuel s id with
  | (.error e, s4) => (.error e, s4, ops)
  | (.ok _, s4) =>
    match serviceGet fuel s4 id with
    | .error e => (.error e, s4, ops)
    | .ok h2 => (.ok h2, s4, ops)

/-- Workflow start (workflow_service.rs `start`): lifecycle guard first, then
the idempotent fast path, then next-ready validation, bookmark creation and
checkout, persistence of the VCS fields, start stamping, and upward
started_at propagation. -/
def workflowStart (vcs : VcsModel) (fuel now : Nat) (s : Store) (id : Nat) :
    Except OsError HydratedTask × Store × List VcsOp :=
  match serviceGet fuel s id with
  | .error e => (.error e, s, [])
  | .ok h =>
    match lifecycleState h.task with
    | .completed => (.error .cannotStartCompleted, s, [])
    | .cancelled => (.error .cannotStartCancelled, s, [])
    | .archived => (.error .cannotModifyArchived, s, [])
    | .pending | .inProgress =>
      match h.task.startedAt, h.task.bookmark with
      | some _, some bm =>
        match vcs.checkoutRes bm with
        | .error e => (.error (osErrorOfVcs e), s, [.checkout bm])
        | .ok _ =>
          match serviceGet fuel s id with
          | .error e => (.error e, s, [.checkout bm])
          | .ok h2 => (.ok h2, s, [.checkout bm])
      | _, _ =>
        match validateStartTarget fuel s id h with
        | .error e => (.error e, s, [])
        | .ok _ =>
          let bm := h.task.bookmark.getD ("task/" ++ toString id)
          match createBookmarkTolerant vcs bm with
          | .error e => (.error (osErrorOfVcs e), s, [.createBookmark bm])
          | .ok _ =>
            match vcs.checkoutRes bm with
            | .error e =>
              (.error (osErrorOfVcs e), s, [.createBookmark bm, .checkout bm])
            | .ok _ =>
              match vcs.currentCommitIdRes with
              | .error e =>
                (.error (osErrorOfVcs e), s,
                  [.createBookmark bm, .checkout bm, .currentCommitId])
              | .ok sha =>
                let s1 := setBookmarkRepo now s id bm
                let s2 := setStartCommitRepo now s1 id sha
                let ops := [VcsOp.createBookmark bm, VcsOp.checkout bm,
                            VcsOp.currentCommitId]
                if h.task.startedAt.isNone then
                  match serviceStart fuel now s2 id with
                  | (.error e, s3) => (.error e, s3, ops)
                  | (.ok _, s3) => workflowStartTail fuel now s3 id ops
                else workflowStartTail fuel now s2 id ops

/-! Concrete stores used to evaluate the code on failing inputs, and the
spec-side order used to compare against the claimed ordering. -/

/-- Task builder for concrete stores: all flags clear, no VCS state. -/
def mkTask (id : Nat) (parentId : Option Nat) (priority : Int)
    (createdAt : Nat) : Task :=
  { id := id, parentId := parentId, description := "", context := "",
    result := none, priority := priority, completed := false,
    completedAt := none, createdAt := createdAt, updatedAt := createdAt,
    startedAt := none, commitSha := none, bookmark := none,
    startCommit := none, cancelled := false, cancelledAt := none,
    archived := false, archivedAt := none }

/-- Order stated by the claim for `list_roots` and `get_children_ordered`:
priority ascending (0 first), then created_at ascending, then id ascending.
This definition follows the spec's words and exists only to be compared with
the order the code realises. -/
def claimedOrderLe (a b : Task) : Bool :=
  if a.priority ≠ b.priority then decide (a.priority < b.priority)
  else if a.createdAt ≠ b.createdAt then decide (a.createdAt < b.createdAt)
  else decide (a.id ≤ b.id)

/-- Whether a list is sorted under the claimed ascending order. -/
def claimedSorted : List Task → Bool
  | [] => true
  | [_] => true
  | a :: b :: rest => claimedOrderLe a b && claimedSorted (b :: rest)

/-- Root with priority 1, created first. -/
def c1A : Task := mkTask 1 none 1 0

/-- Root with priority 0 (highest), created second. -/
def c1B : Task := mkTask 2 none 0 1

/-- Store with two root tasks of priorities 1 and 0. -/
def c1RootsStore : Store := ⟨[c1A, c1B], [], []⟩

/-- Parent of the two ordered children. -/
def c1P : Task := mkTask 10 none 0 0

/-- Child with priority 1, created first. -/
def c1CA : Task := mkTask 11 (some 10) 1 1

/-- Child with priority 0 (highest), created second. -/
def c1CB : Task := mkTask 12 (some 10) 0 2

/-- Store with one parent and two children of priorities 1 and 0. -/
def c1ChildStore : Store := ⟨[c1P, c1CA, c1CB], [], []⟩

/-- Parent task of the C2 store. -/
def c2Parent : Task := mkTask 0 none 1 0

/-- Child that is cancelled but not completed: finished for the hierarchy. -/
def c2Child : Task :=
  { mkTask 1 (some 0) 1 1 with cancelled := true, cancelledAt := some 2 }

/-- Store with a parent whose only child is cancelled. -/
def c2Store : Store := ⟨[c2Parent, c2Child], [], []⟩

/-- Empty store. -/
def emptyStore : Store := ⟨[], [], []⟩

/-- Create input with no priority supplied. -/
def c3InputNone : CreateTaskInput :=
  { description := "t", context := none, parentId := none, priority := none,
    blockedBy := [] }

/-- Create input with an out-of-range priority. -/
def c3InputFive : CreateTaskInput :=
  { description := "t", context := none, parentId := none,
    priority := some 5, blockedBy := [] }

/-- Two stores with identical presence and parent links, row by row. -/
def sameShape (s s' : Store) : Prop :=
  ∀ x, (getTask s' x).map Task.parentId = (getTask s x).map Task.parentId

/-- Completed root task used as the C9 witness input. -/
def w9Task : Task :=
  { mkTask 0 none 1 0 with completed := true, completedAt := some 1 }

/-- Store holding the completed witness task. -/
def w9Store : Store := ⟨[w9Task], [], []⟩

/-- All-success VCS model used by witnesses. -/
def vcsAllOk : VcsModel :=
  { commitRes := fun _ => .ok "c1",
    checkoutRes := fun _ => .ok (),
    createBookmarkRes := fun _ => .ok (),
    deleteBookmarkRes := fun _ => .ok (),
    currentCommitIdRes := .ok "c0",
    probeSha := none }

/-- Completed task still carrying started_at and a bookmark. -/
def w10Task : Task :=
  { mkTask 0 none 1 0 with
    completed := true
    completedAt := some 1
    startedAt := some 1
    bookmark := some "stale" }

/-- Store holding the stale started-then-completed task. -/
def w10Store : Store := ⟨[w10Task], [], []⟩

/-- VCS model whose commit always fails. -/
def vcsCommitFail : VcsModel :=
  { commitRes := fun _ => .error (.operationFailed "boom"),
    checkoutRes := fun _ => .ok (),
    createBookmarkRes := fun _ => .ok (),
    deleteBookmarkRes := fun _ => .ok (),
    currentCommitIdRes := .ok "c0",
    probeSha := none }

/-- Parent of the C4 witness pair. -/
def w4Parent : Task := mkTask 0 none 1 0

/-- Pending depth-1 child of the C4 witness pair. -/
def w4Child : Task := mkTask 1 (some 0) 1 1

/-- Store with a pending parent and child. -/
def w4Store : Store := ⟨[w4Parent, w4Child], [], []⟩

/-! C5: next_ready(Some(id)) and effective blocking. -/

/-- Pending blocker task of the C5 store. -/
def c5B : Task := mkTask 0 none 1 0

/-- Milestone blocked by the pending task. -/
def c5M : Task := mkTask 1 none 0 1

/-- Leaf under the blocked milestone; requesting next_ready from it ignores
its ancestor's blocker. -/
def c5T : Task := mkTask 2 (some 1) 0 2

/-- Store where the requested root's own ancestor is blocked. -/
def c5Store : Store := ⟨[c5B, c5M, c5T], [(1, 0)], []⟩

/-- Path of satisfied blockers: the returned task is reachable from the
requested root through `get_children_ordered` steps, and the root, the
returned task and every node between them have all their own blockers
satisfied.  Blockers of ancestors strictly above the root are not part of
this relation. -/
inductive ChainSat (s : Store) : Task → Nat → Prop where
  | here : ∀ t, ownBlockersSatisfied s t.id = true → ChainSat s t t.id
  | child : ∀ t c r, c ∈ getChildrenOrdered s t.id →
      ownBlockersSatisfied s t.id = true → ChainSat s c r → ChainSat s t r

/-- Single unblocked pending root used as the C5 witness input. -/
def w5Task : Task := mkTask 0 none 1 0

/-- Store holding only the witness root. -/
def w5Store : Store := ⟨[w5Task], [], []⟩

/-! C7: start stamps started_at on every ancestor and keeps VCS state on the
started task only. -/

/-- Strict ancestor through parent links. -/
inductive IsAncestor (s : Store) : Nat → Nat → Prop where
  | parent : ∀ c t p, getTask s c = some t → t.parentId = some p →
      IsAncestor s c p
  | grand : ∀ c t p a, getTask s c = some t → t.parentId = some p →
      IsAncestor s p a → IsAncestor s c a

/-- Frame of the start paths: parent links, bookmarks and start commits of
every row are untouched, and a set started_at is never cleared. -/
def StartFrame (s s' : Store) : Prop :=
  (∀ x, (getTask s' x).map Task.parentId = (getTask s x).map Task.parentId) ∧
  (∀ x, (getTask s' x).map Task.bookmark = (getTask s x).map Task.bookmark) ∧
  (∀ x, (getTask s' x).map Task.startCommit = (getTask s x).map Task.startCommit) ∧
  (∀ x t t', getTask s x = some t → getTask s' x = some t' →
    t.startedAt.isSome = true → t'.startedAt.isSome = true)

/-- Pending milestone of the C7 witness store. -/
def w7M : Task := mkTask 0 none 0 0

/-- Pending task under the witness milestone. -/
def w7T : Task := mkTask 1 (some 0) 0 1

/-- Pending subtask, the task being started. -/
def w7S : Task := mkTask 2 (some 1) 0 2

/-- Store with the pending chain milestone, task, subtask. -/
def w7Store : Store := ⟨[w7M, w7T, w7S], [], []⟩

/-! Frame of the completion paths: parent links, archived and cancelled flags
are untouched everywhere, and a set completed flag is never cleared. -/

/-- Frame respected by every write of the completion paths. -/
def CompleteFrame (s s' : Store) : Prop :=
  (∀ x, (getTask s' x).map Task.parentId = (getTask s x).map Task.parentId) ∧
  (∀ x, (getTask s' x).map Task.archived = (getTask s x).map Task.archived) ∧
  (∀ x, (getTask s' x).map Task.cancelled = (getTask s x).map Task.cancelled) ∧
  (∀ x t t', getTask s x = some t → getTask s' x = some t' →
    t.completed = true → t'.completed = true)

/-- Fresh pending root for the double-completion run. -/
def w8Task : Task := mkTask 1 none 1 0

/-- Store holding only that root. -/
def w8Store : Store := ⟨[w8Task], [], []⟩

/-- The root as the first completion run leaves it. -/
def w8TaskDone : Task :=
  { w8Task with completed := true, completedAt := some 7, updatedAt := 7 }

/-- The store as the first completion run leaves it. -/
def w8Store1 : Store :=
  ⟨[w8TaskDone], [], [⟨1, 1, "lesson", none, 7⟩]⟩

/-- Reachability of the bubble-up walk: states the walk can be in, starting
from store s0 focused at task id0.  Each step records that the walk moved to
a parent ONLY after checking, in the then-current store, that the parent has
no pending children and is not effectively blocked, and that the parent's
auto-completion succeeded. -/
inductive BubbleReach (vcs : VcsModel) (now : Nat) (s0 : Store) (id0 : Nat) :
    Store → Nat → Prop
  | refl : BubbleReach vcs now s0 id0 s0 id0
  | step {s2 : Store} {id2 : Nat} {cur : Task} {pid : Nat} {fuel : Nat}
      {hp : HydratedTask} {s3 : Store} :
      BubbleReach vcs now s0 id0 s2 id2 →
      getTask s2 id2 = some cur →
      cur.parentId = some pid →
      hasPendingChildren s2 pid = false →
      serviceGet fuel s2 pid = .ok hp →
      hp.effectivelyBlocked = false →
      completeParentStep vcs fuel now s2 pid hp.depth = (.ok (), s3) →
      BubbleReach vcs now s0 id0 s3 pid

/-- Pending root used as the parent in the bubble-up run. -/
def w6Root : Task := mkTask 1 none 1 0

/-- Already-completed child under that root. -/
def w6Child : Task :=
  { mkTask 2 (some 1) 1 0 with completed := true, completedAt := some 1 }

/-- Store for the bubble-up run. -/
def w6Store : Store := ⟨[w6Root, w6Child], [], []⟩

/-- The store the bubble-up run from the child leaves: the root has been
auto-completed. -/
def w6Store2 : Store :=
  ⟨[{ w6Root with completed := true, completedAt := some 7, updatedAt := 7 },
    w6Child], [], []⟩

/-- C1.
Claim: `list_roots` and `get_children_ordered` return tasks sorted by
priority ascending (priority value 0 first), ties by created_at then id,
and agree on that order.
This theorem evaluates the code at the failing input: both queries order by
priority DESC, so the priority-1 task precedes the priority-0 task and
neither result is sorted under the claimed ascending order.  The repository's
own test `test_next_ready_respects_priority_order` requires the ascending
order (the priority-0 child must be found first), so the claim reflects the
intent and the SQL `ORDER BY priority DESC` is the slip. -/
theorem c1_order_desc_eval :
    listRoots c1RootsStore = [c1A, c1B] ∧
    c1A.priority = 1 ∧ c1B.priority = 0 ∧
    claimedSorted (listRoots c1RootsStore) = false ∧
    getChildrenOrdered c1ChildStore 10 = [c1CA, c1CB] ∧
    c1CA.priority = 1 ∧ c1CB.priority = 0 ∧
    claimedSorted (getChildrenOrdered c1ChildStore 10) = false := by
  decide

/-- C2.
Claim: `has_pending_children(id)` is true iff some child of id is not
`is_finished_for_hierarchy` (neither completed nor cancelled).
This theorem evaluates the code at the failing input: the only child is
cancelled, hence finished for the hierarchy, yet `has_pending_children`
returns true because the SQL only tests `completed = 0`.  The repository's
own test `test_cancel_after_children_cancelled` and the doc comment
"pending children (incomplete AND non-cancelled)" require false here, so the
claim reflects the intent and the query is the slip. -/
theorem c2_pending_children_eval :
    hasPendingChildren c2Store 0 = true ∧
    getChildren c2Store 0 = [c2Child] ∧
    isFinishedForHierarchy c2Child = true := by
  decide

/-- C3.
Claim: every task returned Ok by create has priority in 0..=2; an explicit
out-of-range priority is rejected with InvalidPriority, and a task created
with no priority also stores a priority in 0..=2.
This theorem evaluates the code at the failing input: with no priority
supplied, create succeeds and stores priority 3 (`input.priority.unwrap_or(3)`
in create_task), outside 0..=2 — while an explicit 5 is indeed rejected.  The
schema default (`priority INTEGER NOT NULL DEFAULT 1`), the comments
"p1=default" and the 0..=2 migration show 3 is a leftover of the legacy 1..=5
scale, so the claim reflects the intent and the literal 3 is the slip. -/
theorem c3_default_priority_eval :
    (serviceCreate 10 0 1 emptyStore c3InputNone).1.map
        (fun h => h.task.priority) = .ok 3 ∧
    ¬ ((0 : Int) ≤ 3 ∧ (3 : Int) ≤ 2) ∧
    (serviceCreate 10 0 1 emptyStore c3InputFive).1 =
      .error (.invalidPriority 5) := by
  decide

/-! General lemmas: row lookup under updates, and success of the hydration
probes on well-formed parent chains. -/

/-- A found task carries the looked-up id. -/
theorem getTask_id_eq {s : Store} {x : Nat} {t : Task}
    (h : getTask s x = some t) : t.id = x := by
  have := List.find?_some h
  simpa using this

/-- Lookup through a map by an id-preserving function. -/
theorem find?_map_id_pres (g : Task → Task) (hg : ∀ t, (g t).id = t.id)
    (x : Nat) : ∀ l : List Task,
    (l.map g).find? (fun t => t.id == x) =
      (l.find? (fun t => t.id == x)).map g
  | [] => rfl
  | t :: ts => by
    by_cases h : t.id = x
    · simp [List.find?_cons, hg, h]
    · simp [List.find?_cons, hg, h, find?_map_id_pres g hg x ts]

/-- Lookup after a keyed update. -/
theorem getTask_mapTask (s : Store) (id x : Nat) (f : Task → Task)
    (hf : ∀ t, (f t).id = t.id) :
    getTask (mapTask s id f) x =
      (getTask s x).map (fun t => if t.id == id then f t else t) := by
  unfold getTask mapTask
  exact find?_map_id_pres _ (fun t => by by_cases h : t.id = id <;> simp [h, hf]) x s.tasks

/-- A keyed update that does not touch parent links preserves the shape. -/
theorem sameShape_mapTask (s : Store) (id : Nat) (f : Task → Task)
    (hf : ∀ t, (f t).id = t.id) (hp : ∀ t, (f t).parentId = t.parentId) :
    sameShape s (mapTask s id f) := by
  intro x
  rw [getTask_mapTask s id x f hf]
  cases h : getTask s x with
  | none => rfl
  | some u => by_cases hu : u.id = id <;> simp [hu, hp]

/-- Shape transfer for chain well-formedness. -/
theorem parentChainOk_congr {s s' : Store} (h : sameShape s s') :
    ∀ fuel p, parentChainOk s' fuel p = parentChainOk s fuel p := by
  intro fuel
  induction fuel with
  | zero => intro p; cases p <;> rfl
  | succ n ih =>
    intro p
    cases p with
    | none => rfl
    | some pid =>
      have hx := h pid
      cases h1 : getTask s pid with
      | none =>
        rw [h1] at hx
        cases h2 : getTask s' pid with
        | none => simp [parentChainOk, h1, h2]
        | some q => rw [h2] at hx; simp at hx
      | some q =>
        rw [h1] at hx
        cases h2 : getTask s' pid with
        | none => rw [h2] at hx; simp at hx
        | some q' =>
          rw [h2] at hx
          have hx' : q'.parentId = q.parentId := by simpa using hx
          simp [parentChainOk, h1, h2, hx', ih]

/-- Unfolding equation: a chain of zero fuel with a pending parent fails. -/
theorem parentChainOk_zero_some (s : Store) (pid : Nat) :
    parentChainOk s 0 (some pid) = false := rfl

/-- Unfolding equation for a chain step. -/
theorem parentChainOk_succ_some (s : Store) (n pid : Nat) :
    parentChainOk s (n + 1) (some pid) =
      match getTask s pid with
      | none => false
      | some p => parentChainOk s n p.parentId := rfl

/-- On a well-formed chain the ancestor-blocking walk cannot fail. -/
theorem ancestorsBlockedE_ok_of_chain (s : Store) :
    ∀ fuel p, parentChainOk s fuel p = true →
    ∀ fuel', fuel ≤ fuel' → ∃ b, ancestorsBlockedE s fuel' p = .ok b := by
  intro fuel
  induction fuel with
  | zero =>
    intro p hp fuel' _
    cases p with
    | none => exact ⟨false, by cases fuel' <;> rfl⟩
    | some pid => rw [parentChainOk_zero_some] at hp; exact absurd hp (by simp)
  | succ n ih =>
    intro p hp fuel' hle
    cases p with
    | none => exact ⟨false, by cases fuel' <;> rfl⟩
    | some pid =>
      obtain ⟨m, rfl⟩ : ∃ m, fuel' = m + 1 := ⟨fuel' - 1, by omega⟩
      rw [parentChainOk_succ_some] at hp
      cases hq : getTask s pid with
      | none => rw [hq] at hp; exact absurd hp (by simp)
      | some q =>
        rw [hq] at hp
        have hqid : q.id = pid := getTask_id_eq hq
        by_cases hb : anyUnsatisfiedBlocker s pid
        · refine ⟨true, ?_⟩
          simp [ancestorsBlockedE, hq, hqid, hb]
        · obtain ⟨b, hbb⟩ := ih q.parentId hp m (by omega)
          refine ⟨b, ?_⟩
          simp [ancestorsBlockedE, hq, hqid, hb, hbb]

/-- On a well-formed chain the effective-blocking probe cannot fail. -/
theorem isEffectivelyBlockedE_ok_of_chain (s : Store) (t : Task)
    (fuel fuel' : Nat) (hch : parentChainOk s fuel t.parentId = true)
    (hle : fuel ≤ fuel') : ∃ b, isEffectivelyBlockedE fuel' s t = .ok b := by
  by_cases hb : anyUnsatisfiedBlocker s t.id
  · exact ⟨true, by simp [isEffectivelyBlockedE, hb]⟩
  · obtain ⟨b, hbb⟩ := ancestorsBlockedE_ok_of_chain s fuel t.parentId hch fuel' hle
    exact ⟨b, by simp [isEffectivelyBlockedE, hb, hbb]⟩

/-- On a well-formed chain the depth walk cannot fail. -/
theorem getTaskDepthAux_ok_of_chain (s : Store) :
    ∀ fuel p, parentChainOk s fuel p = true →
    ∀ fuel' id t acc, getTask s id = some t → t.parentId = p →
      fuel + 1 ≤ fuel' → ∃ d, getTaskDepthAux s fuel' id acc = .ok d := by
  intro fuel
  induction fuel with
  | zero =>
    intro p hp fuel' id t acc hget hpar hle
    cases p with
    | none =>
      obtain ⟨m, rfl⟩ : ∃ m, fuel' = m + 1 := ⟨fuel' - 1, by omega⟩
      exact ⟨acc, by simp [getTaskDepthAux, hget, hpar]⟩
    | some pid => rw [parentChainOk_zero_some] at hp; exact absurd hp (by simp)
  | succ n ih =>
    intro p hp fuel' id t acc hget hpar hle
    cases p with
    | none =>
      obtain ⟨m, rfl⟩ : ∃ m, fuel' = m + 1 := ⟨fuel' - 1, by omega⟩
      exact ⟨acc, by simp [getTaskDepthAux, hget, hpar]⟩
    | some pid =>
      obtain ⟨m, rfl⟩ : ∃ m, fuel' = m + 1 := ⟨fuel' - 1, by omega⟩
      rw [parentChainOk_succ_some] at hp
      cases hq : getTask s pid with
      | none => rw [hq] at hp; exact absurd hp (by simp)
      | some q =>
        rw [hq] at hp
        obtain ⟨d, hd⟩ := ih q.parentId hp m pid q (acc + 1) hq rfl (by omega)
        exact ⟨d, by simp [getTaskDepthAux, hget, hpar, hd]⟩

/-- On a well-formed chain the hydrated service fetch succeeds and returns
the stored row. -/
theorem serviceGet_ok_of_chain (s : Store) (id : Nat) (t : Task)
    (fuel fuel' : Nat) (hget : getTask s id = some t)
    (hch : parentChainOk s fuel t.parentId = true) (hle : fuel + 1 ≤ fuel') :
    ∃ h : HydratedTask, serviceGet fuel' s id = .ok h ∧ h.task = t := by
  obtain ⟨d, hd⟩ :=
    getTaskDepthAux_ok_of_chain s fuel t.parentId hch fuel' id t 0 hget rfl hle
  obtain ⟨b, hb⟩ :=
    isEffectivelyBlockedE_ok_of_chain s t fuel fuel' hch (by omega)
  exact ⟨⟨t, d, b⟩, by simp [serviceGet, hget, hd, hb], rfl⟩

/-! C9: reopen is valid exactly from the derived Completed state. -/

/-- Reopen rewrites the target row by clearing completion. -/
theorem getTask_reopen_self (now : Nat) (s : Store) (id : Nat) (t : Task)
    (hget : getTask s id = some t) :
    getTask (reopenTaskRepo now s id) id =
      some { t with completed := false, completedAt := none, updatedAt := now } := by
  unfold reopenTaskRepo
  rw [getTask_mapTask s id id
       (fun u => { u with completed := false, completedAt := none, updatedAt := now })
       (fun u => rfl), hget]
  simp [getTask_id_eq hget]

/-- Reopen preserves presence and parent links. -/
theorem sameShape_reopen (now : Nat) (s : Store) (id : Nat) :
    sameShape s (reopenTaskRepo now s id) :=
  sameShape_mapTask s id _ (fun u => rfl) (fun u => rfl)

/-- C9.
Claim: reopen succeeds iff the derived lifecycle state is Completed; it fails
with CannotReopenCancelled when Cancelled, CannotModifyArchived when
Archived, and CannotReopenActive when Pending or InProgress.  The chain
hypothesis is the standing referential-integrity invariant of the database
under which hydration cannot fail. -/
theorem c9_reopen_lifecycle (fuel now : Nat) (s : Store) (id : Nat) (t : Task)
    (hget : getTask s id = some t)
    (hch : parentChainOk s fuel t.parentId = true) :
    ((∃ h s', serviceReopen (fuel + 1) now s id = (.ok h, s')) ↔
        lifecycleState t = .completed) ∧
    (lifecycleState t = .cancelled →
      serviceReopen (fuel + 1) now s id = (.error .cannotReopenCancelled, s)) ∧
    (lifecycleState t = .archived →
      serviceReopen (fuel + 1) now s id = (.error .cannotModifyArchived, s)) ∧
    (lifecycleState t = .pending →
      serviceReopen (fuel + 1) now s id =
        (.error (.cannotReopenActive .pending), s)) ∧
    (lifecycleState t = .inProgress →
      serviceReopen (fuel + 1) now s id =
        (.error (.cannotReopenActive .inProgress), s)) := by
  have hsucc : lifecycleState t = .completed →
      ∃ h s', serviceReopen (fuel + 1) now s id = (.ok h, s') := by
    intro hstate
    have hget1 := getTask_reopen_self now s id t hget
    have hch1 : parentChainOk (reopenTaskRepo now s id) fuel
        ({ t with completed := false, completedAt := none,
                  updatedAt := now } : Task).parentId = true := by
      rw [parentChainOk_congr (sameShape_reopen now s id)]
      exact hch
    obtain ⟨d, hd⟩ := getTaskDepthAux_ok_of_chain (reopenTaskRepo now s id) fuel _
      hch1 (fuel + 1) id _ 0 hget1 rfl (le_refl _)
    obtain ⟨b, hb⟩ := isEffectivelyBlockedE_ok_of_chain (reopenTaskRepo now s id) _
      fuel (fuel + 1) hch1 (by omega)
    refine ⟨⟨{ t with completed := false, completedAt := none, updatedAt := now },
             d, b⟩, reopenTaskRepo now s id, ?_⟩
    simp only [serviceReopen, hget, hstate, hget1, hd, hb]
  refine ⟨⟨?_, hsucc⟩, ?_, ?_, ?_, ?_⟩
  · rintro ⟨h, s', hrun⟩
    cases hstate : lifecycleState t with
    | completed => rfl
    | cancelled => simp [serviceReopen, hget, hstate] at hrun
    | archived => simp [serviceReopen, hget, hstate] at hrun
    | pending => simp [serviceReopen, hget, hstate] at hrun
    | inProgress => simp [serviceReopen, hget, hstate] at hrun
  · intro hstate; simp [serviceReopen, hget, hstate]
  · intro hstate; simp [serviceReopen, hget, hstate]
  · intro hstate; simp [serviceReopen, hget, hstate]
  · intro hstate; simp [serviceReopen, hget, hstate]

/-- C9 witness: the theorem applied to a concrete completed task. -/
theorem c9_reopen_lifecycle_witness :
    ((∃ h s', serviceReopen 1 5 w9Store 0 = (.ok h, s')) ↔
        lifecycleState w9Task = .completed) ∧
    (lifecycleState w9Task = .cancelled →
      serviceReopen 1 5 w9Store 0 = (.error .cannotReopenCancelled, w9Store)) ∧
    (lifecycleState w9Task = .archived →
      serviceReopen 1 5 w9Store 0 = (.error .cannotModifyArchived, w9Store)) ∧
    (lifecycleState w9Task = .pending →
      serviceReopen 1 5 w9Store 0 =
        (.error (.cannotReopenActive .pending), w9Store)) ∧
    (lifecycleState w9Task = .inProgress →
      serviceReopen 1 5 w9Store 0 =
        (.error (.cannotReopenActive .inProgress), w9Store)) :=
  c9_reopen_lifecycle 0 5 w9Store 0 w9Task rfl rfl

/-! C10: in workflow start the lifecycle guard precedes the idempotent fast
path.  C4: completion is VCS first: a failing commit leaves the store
untouched. -/

/-- C10.
Claim: the lifecycle guard of start runs before the idempotent fast path; a
completed, cancelled or archived task that still carries started_at and a
bookmark receives the state-specific error and the bookmark is never checked
out again (the run performs no VCS operation at all). -/
theorem c10_guard_before_idempotent (vcs : VcsModel) (fuel now : Nat)
    (s : Store) (id : Nat) (h : HydratedTask)
    (hget : serviceGet fuel s id = .ok h)
    (hstarted : h.task.startedAt.isSome = true)
    (hbm : h.task.bookmark.isSome = true)
    (hinactive : isActiveForWork h.task = false) :
    (lifecycleState h.task = .completed ∨ lifecycleState h.task = .cancelled ∨
       lifecycleState h.task = .archived) ∧
    (lifecycleState h.task = .completed →
      workflowStart vcs fuel now s id = (.error .cannotStartCompleted, s, [])) ∧
    (lifecycleState h.task = .cancelled →
      workflowStart vcs fuel now s id = (.error .cannotStartCancelled, s, [])) ∧
    (lifecycleState h.task = .archived →
      workflowStart vcs fuel now s id = (.error .cannotModifyArchived, s, [])) := by
  have hstates : lifecycleState h.task = .completed ∨
      lifecycleState h.task = .cancelled ∨ lifecycleState h.task = .archived := by
    cases hs : lifecycleState h.task with
    | pending => simp [isActiveForWork, hs] at hinactive
    | inProgress => simp [isActiveForWork, hs] at hinactive
    | completed => exact Or.inl rfl
    | cancelled => exact Or.inr (Or.inl rfl)
    | archived => exact Or.inr (Or.inr rfl)
  refine ⟨hstates, ?_, ?_, ?_⟩ <;> intro hs <;>
    simp [workflowStart, hget, hs]

/-- C10 witness: the theorem applied to a concrete completed task carrying
stale VCS state. -/
theorem c10_guard_before_idempotent_witness :
    (lifecycleState w10Task = .completed ∨ lifecycleState w10Task = .cancelled ∨
       lifecycleState w10Task = .archived) ∧
    (lifecycleState w10Task = .completed →
      workflowStart vcsAllOk 1 5 w10Store 0 =
        (.error .cannotStartCompleted, w10Store, [])) ∧
    (lifecycleState w10Task = .cancelled →
      workflowStart vcsAllOk 1 5 w10Store 0 =
        (.error .cannotStartCancelled, w10Store, [])) ∧
    (lifecycleState w10Task = .archived →
      workflowStart vcsAllOk 1 5 w10Store 0 =
        (.error .cannotModifyArchived, w10Store, [])) :=
  c10_guard_before_idempotent vcsAllOk 1 5 w10Store 0
    ⟨w10Task, 0, false⟩ rfl rfl rfl rfl

/-- Commit helper: a commit failing with anything but NothingToCommit fails
the tolerant wrapper with the converted error. -/
theorem commitTolerant_error (vcs : VcsModel) (msg : String) (e : VcsError)
    (hc : vcs.commitRes msg = .error e) (hne : e ≠ .nothingToCommit) :
    commitTolerant vcs msg = .error (osErrorOfVcs e) := by
  unfold commitTolerant
  rw [hc]
  cases e <;> first | rfl | exact absurd rfl hne

/-- C4.
Claim: if the VCS commit of workflow completion fails with any error other
than NothingToCommit, both the ordinary-task path and the milestone path
return that error and leave the task store completely unchanged. -/
theorem c4_vcs_first_guarantee (vcs : VcsModel) (fuel now : Nat) (s : Store)
    (id : Nat) (r : Option String) (L : List String) (h : HydratedTask)
    (e : VcsError)
    (hget : serviceGet fuel s id = .ok h)
    (hna : h.task.archived = false) (hnc : h.task.cancelled = false)
    (hncomp : h.task.completed = false)
    (hcommit : ∀ msg, vcs.commitRes msg = .error e)
    (hne : e ≠ .nothingToCommit) :
    workflowComplete vcs fuel now s id r L = (.error (osErrorOfVcs e), s) := by
  have hct : ∀ msg, commitTolerant vcs msg = .error (osErrorOfVcs e) :=
    fun msg => commitTolerant_error vcs msg e (hcommit msg) hne
  by_cases hdep : h.depth = 0
  · simp [workflowComplete, completeMilestone, hget, hna, hnc, hncomp, hdep, hct]
  · simp [workflowComplete, completeMilestone, hget, hna, hnc, hncomp, hdep, hct]

/-- C4 witness: the theorem applied to a concrete pending task under a VCS
whose commit fails. -/
theorem c4_vcs_first_guarantee_witness :
    workflowComplete vcsCommitFail 2 9 w4Store 1 none [] =
      (.error (osErrorOfVcs (.operationFailed "boom")), w4Store) :=
  c4_vcs_first_guarantee vcsCommitFail 2 9 w4Store 1 none []
    ⟨w4Child, 1, false⟩ (.operationFailed "boom")
    rfl rfl rfl rfl (fun _ => rfl) (by decide)

/-- C5 counterexample: with the milestone blocked by a pending task,
`next_ready(Some(T))` for the leaf T under it returns T itself, although T is
effectively blocked through its ancestor; the DFS seeds the requested root
with `ancestors_unblocked = true` and never consults blockers above it. -/
theorem c5_counterexample :
    nextReady 5 c5Store (some 2) = .ok (some 2) ∧
    (serviceGet 5 c5Store 2).map (fun h => h.effectivelyBlocked) = .ok true := by
  decide

/-- Unfolding equation for the readiness DFS step. -/
theorem findNextReadyList_cons (s : Store) (n : Nat) (t : Task)
    (rest : List Task) (au : Bool) :
    findNextReadyList s (n + 1) (t :: rest) au =
      if !isActiveForWork t then findNextReadyList s n rest au
      else
        if (getChildrenOrdered s t.id).isEmpty then
          if au && ownBlockersSatisfied s t.id then .ok (some t.id)
          else findNextReadyList s n rest au
        else
          match findNextReadyList s n (getChildrenOrdered s t.id)
              (au && ownBlockersSatisfied s t.id) with
          | .error e => .error e
          | .ok (some r) => .ok (some r)
          | .ok none =>
            if (getChildrenOrdered s t.id).all isFinishedForHierarchy &&
                (au && ownBlockersSatisfied s t.id) then .ok (some t.id)
            else findNextReadyList s n rest au := rfl

/-- With a false inherited flag the readiness DFS never returns a task. -/
theorem findNextReadyList_false (s : Store) :
    ∀ fuel ts r, findNextReadyList s fuel ts false ≠ .ok (some r) := by
  intro fuel
  induction fuel with
  | zero => intro ts r h; simp [findNextReadyList] at h
  | succ n ih =>
    intro ts r h
    cases ts with
    | nil => simp [findNextReadyList] at h
    | cons t rest =>
      rw [findNextReadyList_cons] at h
      by_cases hact : isActiveForWork t
      · simp only [hact, Bool.false_and, Bool.and_false] at h
        by_cases hemp : (getChildrenOrdered s t.id).isEmpty
        · simp only [hemp] at h
          simp at h
          exact ih rest r h
        · simp only [hemp] at h
          rw [if_neg (by simp)] at h
          rw [if_neg (by simp)] at h
          cases hc : findNextReadyList s n (getChildrenOrdered s t.id) false with
          | error e => rw [hc] at h; simp at h
          | ok o =>
            cases o with
            | some r' => exact ih _ r' hc
            | none =>
              rw [hc] at h
              simp at h
              exact ih rest r h
      · simp only [hact] at h
        simp at h
        exact ih rest r h

/-- Every task the readiness DFS returns lies on a blocker-satisfied chain
below one of the seed tasks. -/
theorem findNextReadyList_chainSat (s : Store) :
    ∀ fuel ts au r, findNextReadyList s fuel ts au = .ok (some r) →
      ∃ t, t ∈ ts ∧ ChainSat s t r := by
  intro fuel
  induction fuel with
  | zero => intro ts au r h; simp [findNextReadyList] at h
  | succ n ih =>
    intro ts au r h
    cases ts with
    | nil => simp [findNextReadyList] at h
    | cons t rest =>
      rw [findNextReadyList_cons] at h
      by_cases hact : isActiveForWork t
      · simp only [hact] at h
        rw [if_neg (by simp)] at h
        by_cases hemp : (getChildrenOrdered s t.id).isEmpty
        · rw [if_pos hemp] at h
          by_cases heu : (au && ownBlockersSatisfied s t.id) = true
          · rw [if_pos heu] at h
            obtain rfl : t.id = r := by simpa using h
            have hpair : au = true ∧ ownBlockersSatisfied s t.id = true := by
              simpa using heu
            exact ⟨t, List.mem_cons_self t rest, ChainSat.here t hpair.2⟩
          · rw [if_neg heu] at h
            obtain ⟨t', ht', hc⟩ := ih rest au r h
            exact ⟨t', List.mem_cons_of_mem t ht', hc⟩
        · rw [if_neg hemp] at h
          cases hc : findNextReadyList s n (getChildrenOrdered s t.id)
              (au && ownBlockersSatisfied s t.id) with
          | error e => rw [hc] at h; simp at h
          | ok o =>
            cases o with
            | some r' =>
              rw [hc] at h
              obtain rfl : r' = r := by simpa using h
              have heu : (au && ownBlockersSatisfied s t.id) = true := by
                cases hb : (au && ownBlockersSatisfied s t.id) with
                | true => rfl
                | false =>
                  rw [hb] at hc
                  exact absurd hc (findNextReadyList_false s n _ r')
              have hpair : au = true ∧ ownBlockersSatisfied s t.id = true := by
                simpa using heu
              obtain ⟨c, hcmem, hcs⟩ := ih _ _ r' hc
              exact ⟨t, List.mem_cons_self t rest,
                ChainSat.child t c r' hcmem hpair.2 hcs⟩
            | none =>
              rw [hc] at h
              by_cases hall :
                  ((getChildrenOrdered s t.id).all isFinishedForHierarchy &&
                    (au && ownBlockersSatisfied s t.id)) = true
              · rw [if_pos hall] at h
                obtain rfl : t.id = r := by simpa using h
                have hpair : (getChildrenOrdered s t.id).all isFinishedForHierarchy
                    = true ∧ (au = true ∧ ownBlockersSatisfied s t.id = true) := by
                  simpa using hall
                exact ⟨t, List.mem_cons_self t rest, ChainSat.here t hpair.2.2⟩
              · rw [if_neg hall] at h
                obtain ⟨t', ht', hcs⟩ := ih rest au r h
                exact ⟨t', List.mem_cons_of_mem t ht', hcs⟩
      · simp only [hact] at h
        simp at h
        obtain ⟨t', ht', hcs⟩ := ih rest au r h
        exact ⟨t', List.mem_cons_of_mem t ht', hcs⟩

/-- C5, amended.
The claim as stated is refuted by `c5_counterexample`: the DFS seeds the
requested root with `ancestors_unblocked = true`, so blockers of ancestors
strictly above the requested root are not consulted and the returned task can
still be `effectively_blocked` through them.  Amended claim: when
`next_ready(Some(id))` returns a task, that task is reachable from id through
ordered-children steps and id, the returned task, and every node between them
have all of their own blockers satisfied. -/
theorem c5_amended_chain (fuel : Nat) (s : Store) (id r : Nat)
    (hrun : nextReady fuel s (some id) = .ok (some r)) :
    ∃ h, serviceGet fuel s id = .ok h ∧ ChainSat s h.task r := by
  simp only [nextReady] at hrun
  cases hget : serviceGet fuel s id with
  | error e => rw [hget] at hrun; exact Except.noConfusion hrun
  | ok h =>
    rw [hget] at hrun
    unfold findNextReadyUnder at hrun
    obtain ⟨t, ht, hcs⟩ := findNextReadyList_chainSat s fuel [h.task] true r hrun
    rw [List.mem_singleton] at ht
    subst ht
    exact ⟨h, rfl, hcs⟩

/-- C5 witness: the amended theorem applied to a concrete run that returns
the requested root itself. -/
theorem c5_amended_chain_witness :
    ∃ h, serviceGet 3 w5Store 0 = .ok h ∧ ChainSat w5Store h.task 0 :=
  c5_amended_chain 3 w5Store 0 0 rfl

/-- Lookup of an untouched key after a keyed update. -/
theorem getTask_mapTask_ne (s : Store) (id x : Nat) (f : Task → Task)
    (hf : ∀ t, (f t).id = t.id) (hx : x ≠ id) :
    getTask (mapTask s id f) x = getTask s x := by
  rw [getTask_mapTask s id x f hf]
  cases h : getTask s x with
  | none => rfl
  | some u =>
    have : u.id = x := getTask_id_eq h
    simp [this, hx]

/-- Lookup of the touched key after a keyed update. -/
theorem getTask_mapTask_self (s : Store) (id : Nat) (t : Task)
    (f : Task → Task) (hf : ∀ u, (f u).id = u.id)
    (hget : getTask s id = some t) :
    getTask (mapTask s id f) id = some (f t) := by
  rw [getTask_mapTask s id id f hf, hget]
  simp [getTask_id_eq hget]

/-- Projection through a keyed update that leaves the projection alone. -/
theorem mapTask_proj {α : Type} (s : Store) (id : Nat) (f : Task → Task)
    (hf : ∀ t, (f t).id = t.id) (g : Task → α) (hg : ∀ t, g (f t) = g t) :
    ∀ x, (getTask (mapTask s id f) x).map g = (getTask s x).map g := by
  intro x
  rw [getTask_mapTask s id x f hf]
  cases getTask s x with
  | none => rfl
  | some u => by_cases hu : u.id = id <;> simp [hu, hg]

/-- StartFrame is reflexive. -/
theorem startFrame_refl (s : Store) : StartFrame s s :=
  ⟨fun _ => rfl, fun _ => rfl, fun _ => rfl,
   fun x t t' h1 h2 h3 => by rw [h1] at h2; cases h2; exact h3⟩

/-- StartFrame composes. -/
theorem startFrame_trans {s1 s2 s3 : Store}
    (h12 : StartFrame s1 s2) (h23 : StartFrame s2 s3) : StartFrame s1 s3 := by
  obtain ⟨hp12, hb12, hc12, hs12⟩ := h12
  obtain ⟨hp23, hb23, hc23, hs23⟩ := h23
  refine ⟨fun x => (hp23 x).trans (hp12 x), fun x => (hb23 x).trans (hb12 x),
    fun x => (hc23 x).trans (hc12 x), ?_⟩
  intro x t t' h1 h3 hst
  have hmid := hp12 x
  rw [h1] at hmid
  cases h2 : getTask s2 x with
  | none => rw [h2] at hmid; simp at hmid
  | some tm =>
    exact hs23 x tm t' h2 h3 (hs12 x t tm h1 h2 hst)

/-- The started_at writer respects the start frame. -/
theorem startFrame_startTaskRepo (now : Nat) (s : Store) (id : Nat) :
    StartFrame s (startTaskRepo now s id) := by
  unfold startTaskRepo
  refine ⟨mapTask_proj s id
      (fun t => { t with startedAt := some now, updatedAt := now })
      (fun t => rfl) Task.parentId (fun t => rfl),
    mapTask_proj s id
      (fun t => { t with startedAt := some now, updatedAt := now })
      (fun t => rfl) Task.bookmark (fun t => rfl),
    mapTask_proj s id
      (fun t => { t with startedAt := some now, updatedAt := now })
      (fun t => rfl) Task.startCommit (fun t => rfl), ?_⟩
  intro x t t' h1 h2 hst
  by_cases hx : x = id
  · subst hx
    rw [getTask_mapTask_self s x t
        (fun u => { u with startedAt := some now, updatedAt := now })
        (fun u => rfl) h1] at h2
    cases h2
    simp
  · rw [getTask_mapTask_ne s id x
        (fun u => { u with startedAt := some now, updatedAt := now })
        (fun u => rfl) hx, h1] at h2
    cases h2
    exact hst

/-- Ancestry transfers between stores of equal shape. -/
theorem isAncestor_congr {s s' : Store}
    (h : ∀ x, (getTask s' x).map Task.parentId = (getTask s x).map Task.parentId) :
    ∀ {c a}, IsAncestor s c a → IsAncestor s' c a := by
  intro c a hca
  induction hca with
  | parent c t p hget hp =>
    have hx := h c
    rw [hget] at hx
    cases h2 : getTask s' c with
    | none => rw [h2] at hx; simp at hx
    | some t' =>
      rw [h2] at hx
      have : t'.parentId = t.parentId := by simpa using hx
      exact IsAncestor.parent c t' p h2 (this.trans hp)
  | grand c t p a hget hp hpa ih =>
    have hx := h c
    rw [hget] at hx
    cases h2 : getTask s' c with
    | none => rw [h2] at hx; simp at hx
    | some t' =>
      rw [h2] at hx
      have : t'.parentId = t.parentId := by simpa using hx
      exact IsAncestor.grand c t' p a h2 (this.trans hp) ih

/-- A successful fetch returns the stored row. -/
theorem serviceGet_task {fuel : Nat} {s : Store} {id : Nat} {h : HydratedTask}
    (hget : serviceGet fuel s id = .ok h) : getTask s id = some h.task := by
  unfold serviceGet at hget
  cases hg : getTask s id with
  | none => rw [hg] at hget; exact Except.noConfusion hget
  | some t =>
    simp only [hg] at hget
    cases hd : getTaskDepthAux s fuel id 0 with
    | error e => simp only [hd] at hget; exact Except.noConfusion hget
    | ok d =>
      simp only [hd] at hget
      cases hb : isEffectivelyBlockedE fuel s t with
      | error e => simp only [hb] at hget; exact Except.noConfusion hget
      | ok b =>
        simp only [hb] at hget
        cases hget
        rfl

/-- Started rows stay started across a start frame. -/
theorem startFrame_started_persists {s s' : Store} (h : StartFrame s s')
    {x : Nat} {t : Task} (hget : getTask s x = some t)
    (hst : t.startedAt.isSome = true) :
    ∃ t', getTask s' x = some t' ∧ t'.startedAt.isSome = true := by
  have hx := h.1 x
  rw [hget] at hx
  cases h2 : getTask s' x with
  | none => rw [h2] at hx; simp at hx
  | some t' => exact ⟨t', rfl, h.2.2.2 x t t' hget h2 hst⟩

/-- A successful start bubble keeps the start frame and stamps started_at on
every ancestor of the starting task. -/
theorem bubbleStart_spec (now : Nat) :
    ∀ fuel s cur u s', bubbleStartToAncestors now fuel s cur = (.ok u, s') →
      StartFrame s s' ∧
      (∀ a, IsAncestor s cur a →
        ∃ t', getTask s' a = some t' ∧ t'.startedAt.isSome = true) := by
  intro fuel
  induction fuel with
  | zero =>
    intro s cur u s' hrun
    simp [bubbleStartToAncestors] at hrun
  | succ n ih =>
    intro s cur u s' hrun
    simp only [bubbleStartToAncestors] at hrun
    cases hc : getTask s cur with
    | none => rw [hc] at hrun; simp at hrun
    | some c =>
      simp only [hc] at hrun
      cases hp : c.parentId with
      | none =>
        simp only [hp] at hrun
        have hs : s = s' := congrArg Prod.snd hrun
        subst hs
        refine ⟨startFrame_refl s, ?_⟩
        intro a ha
        exfalso
        cases ha with
        | parent c0 t p hget hpar =>
          rw [hc] at hget
          cases hget
          rw [hp] at hpar
          exact Option.noConfusion hpar
        | grand c0 t p a0 hget hpar hrest =>
          rw [hc] at hget
          cases hget
          rw [hp] at hpar
          exact Option.noConfusion hpar
      | some pid =>
        simp only [hp] at hrun
        cases hpp : getTask s pid with
        | none => rw [hpp] at hrun; simp at hrun
        | some parent =>
          simp only [hpp] at hrun
          by_cases hst : parent.startedAt.isNone = true
          · rw [if_pos hst] at hrun
            have hex : taskExists s pid = true := by simp [taskExists, hpp]
            simp only [serviceStart, hex, if_true] at hrun
            cases hsg : serviceGet n (startTaskRepo now s pid) pid with
            | error e => rw [hsg] at hrun; simp at hrun
            | ok h1 =>
              simp only [hsg] at hrun
              obtain ⟨hframe, hanc⟩ := ih (startTaskRepo now s pid) pid u s' hrun
              have hframe0 : StartFrame s (startTaskRepo now s pid) :=
                startFrame_startTaskRepo now s pid
              refine ⟨startFrame_trans hframe0 hframe, ?_⟩
              intro a ha
              have hpid1 : getTask (startTaskRepo now s pid) pid =
                  some { parent with startedAt := some now, updatedAt := now } :=
                getTask_mapTask_self s pid parent _ (fun u => rfl) hpp
              cases ha with
              | parent c0 t p hget hpar =>
                rw [hc] at hget
                cases hget
                rw [hp] at hpar
                cases hpar
                exact startFrame_started_persists hframe hpid1 (by simp)
              | grand c0 t p a0 hget hpar hrest =>
                rw [hc] at hget
                cases hget
                rw [hp] at hpar
                cases hpar
                exact hanc _ (isAncestor_congr hframe0.1 hrest)
          · rw [if_neg hst] at hrun
            obtain ⟨hframe, hanc⟩ := ih s pid u s' hrun
            refine ⟨hframe, ?_⟩
            intro a ha
            have hsome : parent.startedAt.isSome = true := by
              cases hx : parent.startedAt with
              | none => rw [hx] at hst; simp at hst
              | some v => simp
            cases ha with
            | parent c0 t p hget hpar =>
              rw [hc] at hget
              cases hget
              rw [hp] at hpar
              cases hpar
              exact startFrame_started_persists hframe hpp hsome
            | grand c0 t p a0 hget hpar hrest =>
              rw [hc] at hget
              cases hget
              rw [hp] at hpar
              cases hpar
              exact hanc _ hrest

/-- C7.
Claim: when workflow start succeeds on a pending leaf (no started_at, no
bookmark yet), every ancestor of the task ends up with started_at set while
its bookmark and start commit are untouched; no task other than the started
one has its bookmark or start commit changed; and the started task itself
ends up with started_at, a bookmark and a start commit. -/
theorem c7_start_frame (vcs : VcsModel) (fuel now : Nat) (s : Store) (id : Nat)
    (t0 : Task) (hres : HydratedTask) (s' : Store) (ops : List VcsOp)
    (hget0 : getTask s id = some t0)
    (hpend : t0.startedAt = none) (hbm0 : t0.bookmark = none)
    (hrun : workflowStart vcs fuel now s id = (.ok hres, s', ops)) :
    (∀ a, IsAncestor s id a → a ≠ id →
      ∃ ta ta', getTask s a = some ta ∧ getTask s' a = some ta' ∧
        ta'.startedAt.isSome = true ∧ ta'.bookmark = ta.bookmark ∧
        ta'.startCommit = ta.startCommit) ∧
    (∀ x, x ≠ id → ∀ tx tx', getTask s x = some tx → getTask s' x = some tx' →
      tx'.bookmark = tx.bookmark ∧ tx'.startCommit = tx.startCommit) ∧
    (∃ ti, getTask s' id = some ti ∧ ti.startedAt.isSome = true ∧
      ti.bookmark.isSome = true ∧ ti.startCommit.isSome = true) := by
  unfold workflowStart at hrun
  cases hsg : serviceGet fuel s id with
  | error e => rw [hsg] at hrun; exact absurd (congrArg Prod.fst hrun) (by simp)
  | ok h =>
    simp only [hsg] at hrun
    have hh : h.task = t0 := by
      have := serviceGet_task hsg
      rw [hget0] at this
      exact (Option.some.injEq _ _ ▸ this.symm)
    cases hls : lifecycleState h.task
    all_goals simp only [hls] at hrun
    case completed => exact absurd (congrArg Prod.fst hrun) (by simp)
    case cancelled => exact absurd (congrArg Prod.fst hrun) (by simp)
    case archived => exact absurd (congrArg Prod.fst hrun) (by simp)
    all_goals (
      rw [hh] at hrun
      simp only [hpend, hbm0] at hrun
      cases hv : validateStartTarget fuel s id h with
      | error e => rw [hv] at hrun; exact absurd (congrArg Prod.fst hrun) (by simp)
      | ok uv =>
      simp only [hv] at hrun
      cases hcb : createBookmarkTolerant vcs ((none : Option String).getD
          ("task/" ++ toString id)) with
      | error e =>
        simp only [hcb] at hrun
        exact absurd (congrArg Prod.fst hrun) (by simp)
      | ok uc =>
      simp only [hcb] at hrun
      cases hco : vcs.checkoutRes ((none : Option String).getD
          ("task/" ++ toString id)) with
      | error e =>
        simp only [hco] at hrun
        exact absurd (congrArg Prod.fst hrun) (by simp)
      | ok uo =>
      simp only [hco] at hrun
      cases hcc : vcs.currentCommitIdRes with
      | error e =>
        simp only [hcc] at hrun
        exact absurd (congrArg Prod.fst hrun) (by simp)
      | ok sha =>
      simp only [hcc] at hrun
      simp only [hpend, Option.isNone_none, if_true] at hrun
      set bmv : String := (none : Option String).getD ("task/" ++ toString id)
        with hbmv
      set f0 : Task → Task :=
        fun u => { u with bookmark := some bmv, updatedAt := now } with hf0
      set f1 : Task → Task :=
        fun u => { u with startCommit := some sha, updatedAt := now } with hf1
      set f2 : Task → Task :=
        fun u => { u with startedAt := some now, updatedAt := now } with hf2
      have hget1 : getTask (setBookmarkRepo now s id bmv) id = some (f0 t0) :=
        getTask_mapTask_self s id t0 f0 (fun u => rfl) hget0
      have hget2 : getTask (setStartCommitRepo now
          (setBookmarkRepo now s id bmv) id sha) id = some (f1 (f0 t0)) :=
        getTask_mapTask_self _ id (f0 t0) f1 (fun u => rfl) hget1
      have hex2 : taskExists (setStartCommitRepo now
          (setBookmarkRepo now s id bmv) id sha) id = true := by
        simp [taskExists, hget2]
      simp only [serviceStart, hex2, if_true] at hrun
      cases hsg3 : serviceGet fuel (startTaskRepo now (setStartCommitRepo now
          (setBookmarkRepo now s id bmv) id sha) id) id with
      | error e =>
        simp only [hsg3] at hrun
        exact absurd (congrArg Prod.fst hrun) (by simp)
      | ok h3 =>
      simp only [hsg3, workflowStartTail] at hrun
      cases hbub : bubbleStartToAncestors now fuel (startTaskRepo now
          (setStartCommitRepo now (setBookmarkRepo now s id bmv) id sha) id)
          id with
      | mk rb s4 =>
      rw [hbub] at hrun
      cases rb with
      | error e =>
        simp only at hrun
        exact absurd (congrArg Prod.fst hrun) (by simp)
      | ok ub =>
      simp only at hrun
      cases hfin : serviceGet fuel s4 id with
      | error e =>
        rw [hfin] at hrun
        exact absurd (congrArg Prod.fst hrun) (by simp)
      | ok h4 =>
      rw [hfin] at hrun
      have hs4 : s4 = s' := congrArg (fun p => p.2.1) hrun
      subst hs4
      obtain ⟨hframe, hanc⟩ := bubbleStart_spec now fuel _ id ub s4 hbub
      have hget3 : getTask (startTaskRepo now (setStartCommitRepo now
          (setBookmarkRepo now s id bmv) id sha) id) id =
          some (f2 (f1 (f0 t0))) :=
        getTask_mapTask_self _ id (f1 (f0 t0)) f2 (fun u => rfl) hget2
      have hshape3 : ∀ x,
          (getTask (startTaskRepo now (setStartCommitRepo now
            (setBookmarkRepo now s id bmv) id sha) id) x).map Task.parentId =
          (getTask s x).map Task.parentId := by
        intro x
        have e2 := mapTask_proj (setStartCommitRepo now
            (setBookmarkRepo now s id bmv) id sha) id f2 (fun u => rfl)
            Task.parentId (fun u => rfl) x
        have e1 := mapTask_proj (setBookmarkRepo now s id bmv) id f1
            (fun u => rfl) Task.parentId (fun u => rfl) x
        have e0 := mapTask_proj s id f0 (fun u => rfl) Task.parentId
            (fun u => rfl) x
        exact e2.trans (e1.trans e0)
      have hne3 : ∀ x, x ≠ id →
          getTask (startTaskRepo now (setStartCommitRepo now
            (setBookmarkRepo now s id bmv) id sha) id) x = getTask s x := by
        intro x hx
        have e2 := getTask_mapTask_ne (setStartCommitRepo now
            (setBookmarkRepo now s id bmv) id sha) id x f2 (fun u => rfl) hx
        have e1 := getTask_mapTask_ne (setBookmarkRepo now s id bmv) id x f1
            (fun u => rfl) hx
        have e0 := getTask_mapTask_ne s id x f0 (fun u => rfl) hx
        exact e2.trans (e1.trans e0)
      refine ⟨?_, ?_, ?_⟩
      · intro a ha hne
        obtain ⟨ta', hta', hst'⟩ :=
          hanc a (isAncestor_congr hshape3 ha)
        have hpx := hframe.1 a
        rw [hta', hne3 a hne] at hpx
        cases hga : getTask s a with
        | none => rw [hga] at hpx; simp at hpx
        | some ta =>
          refine ⟨ta, ta', rfl, hta', hst', ?_, ?_⟩
          · have hbx := hframe.2.1 a
            rw [hta', hne3 a hne, hga] at hbx
            simpa using hbx
          · have hcx := hframe.2.2.1 a
            rw [hta', hne3 a hne, hga] at hcx
            simpa using hcx
      · intro x hx tx tx' hgx hgx'
        constructor
        · have hbx := hframe.2.1 x
          rw [hgx', hne3 x hx, hgx] at hbx
          simpa using hbx
        · have hcx := hframe.2.2.1 x
          rw [hgx', hne3 x hx, hgx] at hcx
          simpa using hcx
      · have hbx := hframe.2.1 id
        have hcx := hframe.2.2.1 id
        rw [hget3] at hbx hcx
        cases hgi : getTask s4 id with
        | none => rw [hgi] at hbx; simp at hbx
        | some ti =>
          rw [hgi] at hbx hcx
          obtain ⟨ti', hti', hsti⟩ :=
            startFrame_started_persists hframe hget3 (by simp [hf2])
          rw [hgi] at hti'
          cases hti'
          refine ⟨ti, rfl, hsti, ?_, ?_⟩
          · have : ti.bookmark = some bmv := by simpa [hf0, hf1, hf2] using hbx
            simp [this]
          · have : ti.startCommit = some sha := by
              simpa [hf0, hf1, hf2] using hcx
            simp [this]
    )

/-- C7 witness: the theorem applied to a concrete successful start of the
deepest pending leaf. -/
theorem c7_start_frame_witness : ∃ hres s' ops,
    workflowStart vcsAllOk 6 9 w7Store 2 = (.ok hres, s', ops) ∧
    ((∀ a, IsAncestor w7Store 2 a → a ≠ 2 →
      ∃ ta ta', getTask w7Store a = some ta ∧ getTask s' a = some ta' ∧
        ta'.startedAt.isSome = true ∧ ta'.bookmark = ta.bookmark ∧
        ta'.startCommit = ta.startCommit) ∧
    (∀ x, x ≠ 2 → ∀ tx tx', getTask w7Store x = some tx →
      getTask s' x = some tx' →
      tx'.bookmark = tx.bookmark ∧ tx'.startCommit = tx.startCommit) ∧
    (∃ ti, getTask s' 2 = some ti ∧ ti.startedAt.isSome = true ∧
      ti.bookmark.isSome = true ∧ ti.startCommit.isSome = true)) := by
  obtain ⟨hres, s', ops, hrun⟩ : ∃ hres s' ops,
      workflowStart vcsAllOk 6 9 w7Store 2 = (.ok hres, s', ops) :=
    ⟨_, _, _, rfl⟩
  exact ⟨hres, s', ops, hrun,
    c7_start_frame vcsAllOk 6 9 w7Store 2 w7S hres s' ops rfl rfl rfl hrun⟩

/-- CompleteFrame is reflexive. -/
theorem completeFrame_refl (s : Store) : CompleteFrame s s :=
  ⟨fun _ => rfl, fun _ => rfl, fun _ => rfl,
   fun x t t' h1 h2 h3 => by rw [h1] at h2; cases h2; exact h3⟩

/-- CompleteFrame composes. -/
theorem completeFrame_trans {s1 s2 s3 : Store}
    (h12 : CompleteFrame s1 s2) (h23 : CompleteFrame s2 s3) :
    CompleteFrame s1 s3 := by
  obtain ⟨hp12, ha12, hc12, hm12⟩ := h12
  obtain ⟨hp23, ha23, hc23, hm23⟩ := h23
  refine ⟨fun x => (hp23 x).trans (hp12 x), fun x => (ha23 x).trans (ha12 x),
    fun x => (hc23 x).trans (hc12 x), ?_⟩
  intro x t t' h1 h3 hcomp
  have hmid := hp12 x
  rw [h1] at hmid
  cases h2 : getTask s2 x with
  | none => rw [h2] at hmid; simp at hmid
  | some tm => exact hm23 x tm t' h2 h3 (hm12 x t tm h1 h2 hcomp)

/-- Stores with equal task tables are complete-frame related. -/
theorem completeFrame_of_tasks_eq {s s' : Store} (h : s'.tasks = s.tasks) :
    CompleteFrame s s' := by
  have hx : ∀ x, getTask s' x = getTask s x := by
    intro x; unfold getTask; rw [h]
  refine ⟨fun x => by rw [hx x], fun x => by rw [hx x], fun x => by rw [hx x], ?_⟩
  intro x t t' h1 h2 h3
  rw [hx x, h1] at h2
  cases h2
  exact h3

/-- A keyed update whose function preserves parent, archived and cancelled
and never clears completed respects the complete frame. -/
theorem completeFrame_mapTask (s : Store) (id : Nat) (f : Task → Task)
    (hid : ∀ t, (f t).id = t.id) (hpar : ∀ t, (f t).parentId = t.parentId)
    (harch : ∀ t, (f t).archived = t.archived)
    (hcan : ∀ t, (f t).cancelled = t.cancelled)
    (hmono : ∀ t, t.completed = true → (f t).completed = true) :
    CompleteFrame s (mapTask s id f) := by
  refine ⟨mapTask_proj s id f hid Task.parentId hpar,
    mapTask_proj s id f hid Task.archived harch,
    mapTask_proj s id f hid Task.cancelled hcan, ?_⟩
  intro x t t' h1 h2 h3
  by_cases hx : x = id
  · subst hx
    rw [getTask_mapTask_self s x t f hid h1] at h2
    cases h2
    exact hmono t h3
  · rw [getTask_mapTask_ne s id x f hid hx, h1] at h2
    cases h2
    exact h3

/-- The completion writer respects the complete frame. -/
theorem completeFrame_completeTaskRepo (now : Nat) (s : Store) (id : Nat)
    (r c : Option String) :
    CompleteFrame s (completeTaskRepo now s id r c) := by
  unfold completeTaskRepo
  refine completeFrame_mapTask s id ?_ ?_ ?_ ?_ ?_ ?_ <;>
    first
      | exact fun t => rfl
      | exact fun t h => rfl

/-- Clearing a bookmark respects the complete frame. -/
theorem completeFrame_clearBookmark (now : Nat) (s : Store) (id : Nat) :
    CompleteFrame s (clearBookmarkRepo now s id) := by
  unfold clearBookmarkRepo
  refine completeFrame_mapTask s id ?_ ?_ ?_ ?_ ?_ ?_ <;>
    first
      | exact fun t => rfl
      | exact fun t h => h

/-- Clearing a bookmark never changes a completed flag. -/
theorem clearBookmark_completed_proj (now : Nat) (s : Store) (id : Nat) :
    ∀ x, (getTask (clearBookmarkRepo now s id) x).map Task.completed =
      (getTask s x).map Task.completed := by
  unfold clearBookmarkRepo
  refine mapTask_proj s id ?_ ?_ Task.completed ?_ <;> exact fun t => rfl

/-- Folds that only touch the learnings table keep the task table. -/
theorem foldl_tasks_eq {β : Type} (g : Store → β → Store)
    (hg : ∀ acc b, (g acc b).tasks = acc.tasks) :
    ∀ (l : List β) (s : Store), (l.foldl g s).tasks = s.tasks := by
  intro l
  induction l with
  | nil => intro s; rfl
  | cons b bs ih => intro s; rw [List.foldl_cons, ih (g s b), hg s b]

/-- Attaching own learnings keeps the task table. -/
theorem addOwnLearnings_tasks (now id : Nat) :
    ∀ (L : List String) (s : Store), (addOwnLearnings now id s L).tasks = s.tasks := by
  intro L
  induction L with
  | nil => intro s; rfl
  | cons c cs ih => intro s; rw [addOwnLearnings, ih (addLearningRepo now s id c none)]; rfl

/-- Bubbling learnings keeps the task table. -/
theorem bubbleLearnings_tasks (now : Nat) (s : Store) (fromId toId : Nat) :
    (bubbleLearnings now s fromId toId).tasks = s.tasks := by
  unfold bubbleLearnings
  apply foldl_tasks_eq
  intro acc b
  by_cases h : hasLearningTriple acc toId b.sourceTaskId b.content <;> simp [h]

/-- Equal task tables give equal lookups. -/
theorem getTask_eq_of_tasks_eq {s s' : Store} (h : s'.tasks = s.tasks) :
    ∀ x, getTask s' x = getTask s x := by
  intro x; unfold getTask; rw [h]

/-- Postcondition of the service completion: the complete frame holds, no row
other than the target changes at all, and on success the target's row is the
original with the completed flag set. -/
theorem serviceComplete_post (fuel now : Nat) (ps : Option String) (s : Store)
    (id : Nat) (r : Option String) (L : List String)
    (res : Except OsError HydratedTask) (s3 : Store)
    (h : serviceCompleteWithLearnings fuel now ps s id r L = (res, s3)) :
    CompleteFrame s s3 ∧
    (∀ q, q ≠ id → getTask s3 q = getTask s q) ∧
    (∀ ht, res = .ok ht → ∃ t0 tE, getTask s id = some t0 ∧
      getTask s3 id = some tE ∧ tE.completed = true ∧
      tE.archived = t0.archived ∧ tE.cancelled = t0.cancelled) := by
  unfold serviceCompleteWithLearnings at h
  cases hex : taskExists s id with
  | false =>
    simp only [hex] at h
    simp at h
    obtain ⟨hres, hs⟩ := h
    subst hs
    exact ⟨completeFrame_refl s, fun q _ => rfl,
      fun ht hok => absurd (hres ▸ hok) (by simp)⟩
  | true =>
    simp only [hex] at h
    simp only [Bool.not_true, Bool.false_eq_true, if_false] at h
    cases hpc : hasPendingChildren s id with
    | true =>
      rw [if_pos (by rw [hpc])] at h
      obtain ⟨hres, hs⟩ : (.error OsError.pendingChildren : Except OsError HydratedTask) = res ∧ s = s3 := by
        constructor
        · exact congrArg Prod.fst h
        · exact congrArg Prod.snd h
      subst hs
      exact ⟨completeFrame_refl s, fun q _ => rfl,
        fun ht hok => absurd (hres ▸ hok) (by simp)⟩
    | false =>
      rw [if_neg (by rw [hpc]; simp)] at h
      obtain ⟨t0, ht0⟩ : ∃ t0, getTask s id = some t0 := by
        unfold taskExists at hex
        cases hg : getTask s id with
        | none => rw [hg] at hex; simp at hex
        | some t => exact ⟨t, rfl⟩
      have htasks1 : (addOwnLearnings now id s L).tasks = s.tasks :=
        addOwnLearnings_tasks now id L s
      have hget1 : getTask (addOwnLearnings now id s L) id = some t0 := by
        rw [getTask_eq_of_tasks_eq htasks1]; exact ht0
      have hget2 : getTask (completeTaskRepo now (addOwnLearnings now id s L) id r ps) id = some { t0 with completed := true, completedAt := some now, result := r, commitSha := ps, updatedAt := now } := by
        unfold completeTaskRepo
        exact getTask_mapTask_self _ id t0 _ (fun u => rfl) hget1
      rw [hget2] at h
      set s2 := completeTaskRepo now (addOwnLearnings now id s L) id r ps
        with hs2
      set tC : Task := { t0 with completed := true, completedAt := some now, result := r, commitSha := ps, updatedAt := now } with htC
      set s3v : Store :=
        (match tC.parentId with
          | some pid => bubbleLearnings now s2 id pid
          | none => s2) with hs3v
      have htasks3 : s3v.tasks = s2.tasks := by
        rw [hs3v]
        cases tC.parentId with
        | none => rfl
        | some pid => exact bubbleLearnings_tasks now s2 id pid
      have hres : res = serviceGet fuel s3v id := (congrArg Prod.fst h).symm
      have hs3 : s3 = s3v := (congrArg Prod.snd h).symm
      subst hs3
      have hframe : CompleteFrame s s3v :=
        completeFrame_trans (completeFrame_trans
          (completeFrame_of_tasks_eq htasks1)
          (completeFrame_completeTaskRepo now (addOwnLearnings now id s L) id r ps))
          (completeFrame_of_tasks_eq htasks3)
      refine ⟨hframe, ?_, ?_⟩
      · intro q hq
        rw [getTask_eq_of_tasks_eq htasks3, hs2]
        unfold completeTaskRepo
        rw [getTask_mapTask_ne (addOwnLearnings now id s L) id q
          (fun t => { t with completed := true, completedAt := some now, result := r, commitSha := ps, updatedAt := now })
          (fun u => rfl) hq,
          getTask_eq_of_tasks_eq htasks1]
      · intro ht hok
        refine ⟨t0, tC, ht0, ?_, rfl, rfl, rfl⟩
        rw [getTask_eq_of_tasks_eq htasks3]
        exact hget2

/-- Transporting the completed/archived/cancelled flags of a row along a
complete frame: a completed, unarchived, uncancelled row stays so. -/
theorem completeFrame_flags {s s' : Store} (h : CompleteFrame s s') (id : Nat)
    (t : Task) (hget : getTask s id = some t) (hc : t.completed = true)
    (ha : t.archived = false) (hx : t.cancelled = false) :
    ∃ t', getTask s' id = some t' ∧ t'.completed = true ∧
      t'.archived = false ∧ t'.cancelled = false := by
  obtain ⟨hpar, harch, hcanc, hcomp⟩ := h
  have h1 := harch id
  rw [hget] at h1
  cases hg : getTask s' id with
  | none => rw [hg] at h1; simp at h1
  | some t' =>
    rw [hg] at h1
    have ha' : t'.archived = false := by simpa [ha] using h1
    have h2 := hcanc id
    rw [hget, hg] at h2
    have hx' : t'.cancelled = false := by simpa [hx] using h2
    exact ⟨t', rfl, hcomp id t t' hget hg hc, ha', hx'⟩

/-- The best-effort bookmark cleanup of the ordinary completion path only
ever leaves the store alone or clears the bookmark, so the complete frame
holds. -/
theorem completeFrame_cleanup (vcs : VcsModel) (now : Nat) (s : Store)
    (id : Nat) (t : Task) :
    CompleteFrame s (cleanupTaskBookmark vcs now s id t) := by
  unfold cleanupTaskBookmark
  repeat' first
    | exact completeFrame_refl s
    | exact completeFrame_clearBookmark now s id
    | split
    | dsimp only

/-- The descendant bookmark sweep of the milestone path respects the
complete frame. -/
theorem completeFrame_deleteDesc (vcs : VcsModel) (now : Nat) :
    ∀ ds s, CompleteFrame s (deleteDescendantBookmarks vcs now s ds) := by
  intro ds
  induction ds with
  | nil => intro s; exact completeFrame_refl s
  | cons d ds ih =>
    intro s
    have hstep : CompleteFrame s
        (match d.bookmark with
          | none => s
          | some bm =>
            match vcs.deleteBookmarkRes bm with
            | Except.error _ => s
            | Except.ok _ => clearBookmarkRepo now s d.id) := by
      cases d.bookmark with
      | none => exact completeFrame_refl s
      | some bm =>
        show CompleteFrame s
          (match vcs.deleteBookmarkRes bm with
            | Except.error _ => s
            | Except.ok _ => clearBookmarkRepo now s d.id)
        cases vcs.deleteBookmarkRes bm with
        | error e => exact completeFrame_refl s
        | ok u => exact completeFrame_clearBookmark now s d.id
    exact completeFrame_trans hstep (ih _)

/-- The final own-bookmark deletion step of the milestone path respects the
complete frame. -/
theorem completeFrame_bookstep (vcs : VcsModel) (now : Nat) (s2 : Store)
    (id : Nat) (bk : Option String) :
    CompleteFrame s2
      (match bk with
        | none => s2
        | some bm =>
          match vcs.deleteBookmarkRes bm with
          | Except.error _ => s2
          | Except.ok _ => clearBookmarkRepo now s2 id) := by
  cases bk with
  | none => exact completeFrame_refl s2
  | some bm =>
    show CompleteFrame s2
      (match vcs.deleteBookmarkRes bm with
        | Except.error _ => s2
        | Except.ok _ => clearBookmarkRepo now s2 id)
    cases vcs.deleteBookmarkRes bm with
    | error e => exact completeFrame_refl s2
    | ok u => exact completeFrame_clearBookmark now s2 id

/-- Postcondition of the milestone completion: the complete frame holds from
the input store, and on success the target row ends completed, unarchived
and uncancelled. -/
theorem completeMilestone_post (vcs : VcsModel) (fuel now : Nat) (s : Store)
    (id : Nat) (r : Option String) (L : List String)
    (res : Except OsError Task) (s1 : Store)
    (h : completeMilestone vcs fuel now s id r L = (res, s1)) :
    CompleteFrame s s1 ∧
    (∀ t1, res = .ok t1 → ∃ tE, getTask s1 id = some tE ∧
      tE.completed = true ∧ tE.archived = false ∧ tE.cancelled = false) := by
  unfold completeMilestone at h
  cases hsg : serviceGet fuel s id with
  | error e =>
    simp only [hsg] at h
    rw [Prod.mk.injEq] at h
    obtain ⟨hres, hs1⟩ := h
    subst hs1
    exact ⟨completeFrame_refl s, fun t1 hok => absurd (hres.trans hok) (by simp)⟩
  | ok hy =>
    simp only [hsg] at h
    by_cases harch : hy.task.archived = true
    · rw [if_pos harch] at h
      rw [Prod.mk.injEq] at h
      obtain ⟨hres, hs1⟩ := h
      subst hs1
      exact ⟨completeFrame_refl s, fun t1 hok => absurd (hres.trans hok) (by simp)⟩
    · rw [if_neg harch] at h
      by_cases hcanc : hy.task.cancelled = true
      · rw [if_pos hcanc] at h
        rw [Prod.mk.injEq] at h
        obtain ⟨hres, hs1⟩ := h
        subst hs1
        exact ⟨completeFrame_refl s, fun t1 hok => absurd (hres.trans hok) (by simp)⟩
      · rw [if_neg hcanc] at h
        by_cases hcomp : hy.task.completed = true
        · rw [if_pos hcomp] at h
          rw [Prod.mk.injEq] at h
          obtain ⟨hres, hs1⟩ := h
          subst hs1
          refine ⟨completeFrame_refl s, fun t1 hok => ?_⟩
          exact ⟨hy.task, serviceGet_task hsg, hcomp,
            by simpa using harch, by simpa using hcanc⟩
        · rw [if_neg hcomp] at h
          by_cases hdep : hy.depth ≠ 0
          · rw [if_pos hdep] at h
            cases hct : commitTolerant vcs (completeMsg hy.task r) with
            | error e =>
              simp only [hct] at h
              rw [Prod.mk.injEq] at h
              obtain ⟨hres, hs1⟩ := h
              subst hs1
              exact ⟨completeFrame_refl s,
                fun t1 hok => absurd (hres.trans hok) (by simp)⟩
            | ok u =>
              simp only [hct] at h
              cases hscw : serviceCompleteWithLearnings fuel now vcs.probeSha s id r L with
              | mk rs ss =>
                obtain ⟨hfr, hq, hokb⟩ :=
                  serviceComplete_post fuel now vcs.probeSha s id r L rs ss hscw
                cases rs with
                | error e =>
                  simp only [hscw] at h
                  rw [Prod.mk.injEq] at h
                  obtain ⟨hres, hs1⟩ := h
                  subst hs1
                  exact ⟨hfr, fun t1 hok => absurd (hres.trans hok) (by simp)⟩
                | ok ht =>
                  simp only [hscw] at h
                  rw [Prod.mk.injEq] at h
                  obtain ⟨hres, hs1⟩ := h
                  subst hs1
                  obtain ⟨t0, tE, ht0, htE, htEc, htEa, htEx⟩ := hokb ht rfl
                  have h5 := serviceGet_task hsg
                  rw [ht0] at h5
                  injection h5 with h6
                  refine ⟨hfr, fun t1 hok => ?_⟩
                  exact ⟨tE, htE, htEc,
                    by rw [htEa, h6]; simpa using harch,
                    by rw [htEx, h6]; simpa using hcanc⟩
          · rw [if_neg hdep] at h
            cases hct : commitTolerant vcs (milestoneMsg hy.task r) with
            | error e =>
              simp only [hct] at h
              rw [Prod.mk.injEq] at h
              obtain ⟨hres, hs1⟩ := h
              subst hs1
              exact ⟨completeFrame_refl s,
                fun t1 hok => absurd (hres.trans hok) (by simp)⟩
            | ok u =>
              simp only [hct] at h
              cases hscw : serviceCompleteWithLearnings fuel now vcs.probeSha s id r L with
              | mk rs ss =>
                obtain ⟨hfr, hq, hokb⟩ :=
                  serviceComplete_post fuel now vcs.probeSha s id r L rs ss hscw
                cases rs with
                | error e =>
                  simp only [hscw] at h
                  rw [Prod.mk.injEq] at h
                  obtain ⟨hres, hs1⟩ := h
                  subst hs1
                  exact ⟨hfr, fun t1 hok => absurd (hres.trans hok) (by simp)⟩
                | ok ht =>
                  simp only [hscw] at h
                  obtain ⟨t0, tE, ht0, htE, htEc, htEa, htEx⟩ := hokb ht rfl
                  have h5 := serviceGet_task hsg
                  rw [ht0] at h5
                  injection h5 with h6
                  have hEarch : tE.archived = false := by
                    rw [htEa, h6]; simpa using harch
                  have hEcanc : tE.cancelled = false := by
                    rw [htEx, h6]; simpa using hcanc
                  split at h
                  · rw [Prod.mk.injEq] at h
                    obtain ⟨hres, hs1⟩ := h
                    subst hs1
                    exact ⟨hfr, fun t1 hok => ⟨tE, htE, htEc, hEarch, hEcanc⟩⟩
                  · split at h
                    · rw [Prod.mk.injEq] at h
                      obtain ⟨hres, hs1⟩ := h
                      subst hs1
                      exact ⟨hfr, fun t1 hok => ⟨tE, htE, htEc, hEarch, hEcanc⟩⟩
                    · rw [Prod.mk.injEq] at h
                      obtain ⟨hres, hs1⟩ := h
                      subst hs1
                      have hfr2 : CompleteFrame ss
                          (deleteDescendantBookmarks vcs now ss
                            (getAllDescendants ss fuel id)) :=
                        completeFrame_deleteDesc vcs now _ ss
                      have hfr3 := completeFrame_bookstep vcs now
                        (deleteDescendantBookmarks vcs now ss
                          (getAllDescendants ss fuel id)) id hy.task.bookmark
                      have hfrT := completeFrame_trans hfr2 hfr3
                      obtain ⟨tE2, htE2, htE2c, htE2a, htE2x⟩ :=
                        completeFrame_flags hfrT id tE htE htEc hEarch hEcanc
                      exact ⟨completeFrame_trans hfr hfrT,
                        fun t1 hok => ⟨tE2, htE2, htE2c, htE2a, htE2x⟩⟩

/-- One parent auto-completion step respects the complete frame. -/
theorem completeParentStep_frame (vcs : VcsModel) (fuel now : Nat) (s : Store)
    (pid pdepth : Nat) (res : Except OsError Unit) (s2 : Store)
    (h : completeParentStep vcs fuel now s pid pdepth = (res, s2)) :
    CompleteFrame s s2 := by
  unfold completeParentStep at h
  by_cases hd : (pdepth == 0) = true
  · rw [if_pos hd] at h
    cases hcm : completeMilestone vcs fuel now s pid none [] with
    | mk rm sm =>
      obtain ⟨hfr, _⟩ := completeMilestone_post vcs fuel now s pid none [] rm sm hcm
      cases rm with
      | error e =>
        simp only [hcm] at h
        rw [Prod.mk.injEq] at h
        obtain ⟨_, hs2⟩ := h
        subst hs2
        exact hfr
      | ok t =>
        simp only [hcm] at h
        rw [Prod.mk.injEq] at h
        obtain ⟨_, hs2⟩ := h
        subst hs2
        exact hfr
  · rw [if_neg hd] at h
    cases hsc : serviceCompleteWithLearnings fuel now vcs.probeSha s pid none [] with
    | mk rm sm =>
      obtain ⟨hfr, _, _⟩ :=
        serviceComplete_post fuel now vcs.probeSha s pid none [] rm sm hsc
      cases rm with
      | error e =>
        simp only [hsc] at h
        rw [Prod.mk.injEq] at h
        obtain ⟨_, hs2⟩ := h
        subst hs2
        exact hfr
      | ok t =>
        simp only [hsc] at h
        rw [Prod.mk.injEq] at h
        obtain ⟨_, hs2⟩ := h
        subst hs2
        exact hfr

/-- The bubble-up walk respects the complete frame: it never unsets a
completed flag, never touches archive or cancel flags, and never moves a
task in the tree. -/
theorem bubbleUp_frame (vcs : VcsModel) (now : Nat) :
    ∀ fuel s id res s2, bubbleUpCompletion vcs now fuel s id = (res, s2) →
    CompleteFrame s s2 := by
  intro fuel
  induction fuel with
  | zero =>
    intro s id res s2 h
    rw [Prod.mk.injEq] at h
    obtain ⟨_, hs2⟩ := h
    subst hs2
    exact completeFrame_refl s
  | succ n ih =>
    intro s id res s2 h
    unfold bubbleUpCompletion at h
    cases hg : getTask s id with
    | none =>
      simp only [hg] at h
      rw [Prod.mk.injEq] at h
      obtain ⟨_, hs2⟩ := h
      subst hs2
      exact completeFrame_refl s
    | some cur =>
      simp only [hg] at h
      cases hp : cur.parentId with
      | none =>
        simp only [hp] at h
        rw [Prod.mk.injEq] at h
        obtain ⟨_, hs2⟩ := h
        subst hs2
        exact completeFrame_refl s
      | some pid =>
        simp only [hp] at h
        by_cases hpc : hasPendingChildren s pid = true
        · rw [if_pos hpc] at h
          rw [Prod.mk.injEq] at h
          obtain ⟨_, hs2⟩ := h
          subst hs2
          exact completeFrame_refl s
        · rw [if_neg hpc] at h
          cases hsg : serviceGet n s pid with
          | error e =>
            simp only [hsg] at h
            rw [Prod.mk.injEq] at h
            obtain ⟨_, hs2⟩ := h
            subst hs2
            exact completeFrame_refl s
          | ok hyp =>
            simp only [hsg] at h
            by_cases hb : hyp.effectivelyBlocked = true
            · rw [if_pos hb] at h
              rw [Prod.mk.injEq] at h
              obtain ⟨_, hs2⟩ := h
              subst hs2
              exact completeFrame_refl s
            · rw [if_neg hb] at h
              cases hstep : completeParentStep vcs n now s pid hyp.depth with
              | mk rs ss =>
                have hfr1 := completeParentStep_frame vcs n now s pid hyp.depth rs ss hstep
                cases rs with
                | error e =>
                  simp only [hstep] at h
                  rw [Prod.mk.injEq] at h
                  obtain ⟨_, hs2⟩ := h
                  subst hs2
                  exact hfr1
                | ok u =>
                  simp only [hstep] at h
                  exact completeFrame_trans hfr1 (ih ss pid res s2 h)

/-- Postcondition of a successful workflow completion: the complete frame
holds from the input store and the target row ends completed, unarchived
and uncancelled. -/
theorem workflowComplete_ok_post (vcs : VcsModel) (fuel now : Nat) (s : Store)
    (id : Nat) (r : Option String) (L : List String) (t1 : Task) (s1 : Store)
    (h : workflowComplete vcs fuel now s id r L = (.ok t1, s1)) :
    CompleteFrame s s1 ∧ ∃ tE, getTask s1 id = some tE ∧
      tE.completed = true ∧ tE.archived = false ∧ tE.cancelled = false := by
  unfold workflowComplete at h
  cases hsg : serviceGet fuel s id with
  | error e =>
    simp only [hsg] at h
    exact absurd (congrArg Prod.fst h) (by simp)
  | ok hy =>
    simp only [hsg] at h
    by_cases harch : hy.task.archived = true
    · rw [if_pos harch] at h
      exact absurd (congrArg Prod.fst h) (by simp)
    · rw [if_neg harch] at h
      by_cases hcanc : hy.task.cancelled = true
      · rw [if_pos hcanc] at h
        exact absurd (congrArg Prod.fst h) (by simp)
      · rw [if_neg hcanc] at h
        by_cases hcomp : hy.task.completed = true
        · rw [if_pos hcomp] at h
          rw [Prod.mk.injEq] at h
          obtain ⟨hres, hs1⟩ := h
          subst hs1
          exact ⟨completeFrame_refl s, hy.task, serviceGet_task hsg, hcomp,
            by simpa using harch, by simpa using hcanc⟩
        · rw [if_neg hcomp] at h
          by_cases hd : (hy.depth == 0) = true
          · rw [if_pos hd] at h
            obtain ⟨hfr, hb⟩ :=
              completeMilestone_post vcs fuel now s id r L (.ok t1) s1 h
            exact ⟨hfr, hb t1 rfl⟩
          · rw [if_neg hd] at h
            cases hct : commitTolerant vcs (completeMsg hy.task r) with
            | error e =>
              simp only [hct] at h
              exact absurd (congrArg Prod.fst h) (by simp)
            | ok u =>
              simp only [hct] at h
              cases hscw : serviceCompleteWithLearnings fuel now vcs.probeSha s id r L with
              | mk rs ss =>
                obtain ⟨hfrS, hq, hokb⟩ :=
                  serviceComplete_post fuel now vcs.probeSha s id r L rs ss hscw
                cases rs with
                | error e =>
                  simp only [hscw] at h
                  exact absurd (congrArg Prod.fst h) (by simp)
                | ok ht =>
                  simp only [hscw] at h
                  obtain ⟨t0, tE, ht0, htE, htEc, htEa, htEx⟩ := hokb ht rfl
                  have h5 := serviceGet_task hsg
                  rw [ht0] at h5
                  injection h5 with h6
                  have hEarch : tE.archived = false := by
                    rw [htEa, h6]; simpa using harch
                  have hEcanc : tE.cancelled = false := by
                    rw [htEx, h6]; simpa using hcanc
                  have hfrC : CompleteFrame ss
                      (cleanupTaskBookmark vcs now ss id hy.task) :=
                    completeFrame_cleanup vcs now ss id hy.task
                  cases hbu : bubbleUpCompletion vcs now fuel
                      (cleanupTaskBookmark vcs now ss id hy.task) id with
                  | mk rb s3 =>
                    have hfrB := bubbleUp_frame vcs now fuel
                      (cleanupTaskBookmark vcs now ss id hy.task) id rb s3 hbu
                    cases rb with
                    | error e =>
                      simp only [hbu] at h
                      exact absurd (congrArg Prod.fst h) (by simp)
                    | ok v =>
                      simp only [hbu] at h
                      rw [Prod.mk.injEq] at h
                      obtain ⟨hres, hs1⟩ := h
                      subst hs1
                      obtain ⟨tE2, htE2, htE2c, htE2a, htE2x⟩ :=
                        completeFrame_flags (completeFrame_trans hfrC hfrB)
                          id tE htE htEc hEarch hEcanc
                      exact ⟨completeFrame_trans hfrS
                        (completeFrame_trans hfrC hfrB),
                        tE2, htE2, htE2c, htE2a, htE2x⟩

/-- C8.
Claim: applying complete(t, r, [L]) twice through the workflow layer yields
exactly the same multiset of learnings on t and on every ancestor of t as
applying it once, and the second call returns the task unchanged.  Proven in
the strong form: under the standing referential-integrity invariant
(parentChainOk), a second identical workflow completion returns the stored
row as-is together with the UNCHANGED store, so the learnings table — hence
the learnings multiset of every task, ancestors included — is exactly that
of the single application, and no duplicate (task_id, origin_task_id,
content) triple is ever added by the repeated call. -/
theorem c8_complete_idempotent (vcs : VcsModel) (fuelc fuel now : Nat)
    (s : Store) (id : Nat) (r : Option String) (L : List String)
    (t t1 : Task) (s1 : Store)
    (hget : getTask s id = some t)
    (hch : parentChainOk s fuelc t.parentId = true)
    (hle : fuelc + 1 ≤ fuel)
    (h1 : workflowComplete vcs fuel now s id r L = (.ok t1, s1)) :
    ∃ t2, workflowComplete vcs fuel now s1 id r L = (.ok t2, s1) ∧
      getTask s1 id = some t2 ∧ t2.completed = true ∧
      (∀ x, learningsOf (workflowComplete vcs fuel now s1 id r L).2 x =
        learningsOf s1 x) := by
  obtain ⟨hfr, tE, htE, htEc, htEa, htEx⟩ :=
    workflowComplete_ok_post vcs fuel now s id r L t1 s1 h1
  have hshape : sameShape s s1 := hfr.1
  have htEpar : tE.parentId = t.parentId := by
    have hx := hfr.1 id
    rw [htE, hget] at hx
    simpa using hx
  have hch1 : parentChainOk s1 fuelc tE.parentId = true := by
    rw [parentChainOk_congr hshape, htEpar]
    exact hch
  obtain ⟨h2, hsg2, hh2task⟩ :=
    serviceGet_ok_of_chain s1 id tE fuelc fuel htE hch1 hle
  have h2run : workflowComplete vcs fuel now s1 id r L = (.ok tE, s1) := by
    unfold workflowComplete
    simp only [hsg2, hh2task, htEa, htEx, htEc]
    simp
  refine ⟨tE, h2run, htE, htEc, fun x => by rw [h2run]⟩

/-- Witness for C8: completing the fresh root once and then again returns the
completed row with the store — learnings included — unchanged. -/
theorem c8_complete_idempotent_witness :
    getTask w8Store 1 = some w8Task ∧
    parentChainOk w8Store 4 w8Task.parentId = true ∧
    4 + 1 ≤ 5 ∧
    workflowComplete vcsAllOk 5 7 w8Store 1 none ["lesson"] =
      (.ok w8TaskDone, w8Store1) ∧
    ∃ t2, workflowComplete vcsAllOk 5 7 w8Store1 1 none ["lesson"] =
        (.ok t2, w8Store1) ∧
      getTask w8Store1 1 = some t2 ∧ t2.completed = true ∧
      (∀ x, learningsOf
          (workflowComplete vcsAllOk 5 7 w8Store1 1 none ["lesson"]).2 x =
        learningsOf w8Store1 x) :=
  ⟨by decide, by decide, by decide, by decide,
   c8_complete_idempotent vcsAllOk 4 5 7 w8Store 1 none ["lesson"]
     w8Task w8TaskDone w8Store1 (by decide) (by decide) (by decide) (by decide)⟩

/-- Induction core for the bubble-up walk: a successful run extends any
reach to its start into a reach to its final store, ending at the forest
root or at the first parent failing the pending-children or
effective-blocking test. -/
theorem bubbleUp_reach_aux (vcs : VcsModel) (now : Nat) :
    ∀ fuel s id res s2, bubbleUpCompletion vcs now fuel s id = (res, s2) →
    res = .ok () →
    ∀ s0 id0, BubbleReach vcs now s0 id0 s id →
    ∃ id2 cur, BubbleReach vcs now s0 id0 s2 id2 ∧ getTask s2 id2 = some cur ∧
      (cur.parentId = none ∨
       ∃ pid, cur.parentId = some pid ∧
         (hasPendingChildren s2 pid = true ∨
          ∃ f hp, serviceGet f s2 pid = .ok hp ∧
            hp.effectivelyBlocked = true)) := by
  intro fuel
  induction fuel with
  | zero =>
    intro s id res s2 h hok s0 id0 hreach
    unfold bubbleUpCompletion at h
    rw [Prod.mk.injEq] at h
    obtain ⟨hres, hs2⟩ := h
    exact absurd (hres.trans hok) (by decide)
  | succ n ih =>
    intro s id res s2 h hok s0 id0 hreach
    unfold bubbleUpCompletion at h
    cases hg : getTask s id with
    | none =>
      simp only [hg] at h
      rw [Prod.mk.injEq] at h
      obtain ⟨hres, hs2⟩ := h
      exact absurd (hres.trans hok) (by simp)
    | some cur =>
      simp only [hg] at h
      cases hp : cur.parentId with
      | none =>
        simp only [hp] at h
        rw [Prod.mk.injEq] at h
        obtain ⟨hres, hs2⟩ := h
        subst hs2
        exact ⟨id, cur, hreach, hg, Or.inl hp⟩
      | some pid =>
        simp only [hp] at h
        by_cases hpc : hasPendingChildren s pid = true
        · rw [if_pos hpc] at h
          rw [Prod.mk.injEq] at h
          obtain ⟨hres, hs2⟩ := h
          subst hs2
          exact ⟨id, cur, hreach, hg, Or.inr ⟨pid, hp, Or.inl hpc⟩⟩
        · rw [if_neg hpc] at h
          cases hsg : serviceGet n s pid with
          | error e =>
            simp only [hsg] at h
            rw [Prod.mk.injEq] at h
            obtain ⟨hres, hs2⟩ := h
            exact absurd (hres.trans hok) (by simp)
          | ok hyp =>
            simp only [hsg] at h
            by_cases hb : hyp.effectivelyBlocked = true
            · rw [if_pos hb] at h
              rw [Prod.mk.injEq] at h
              obtain ⟨hres, hs2⟩ := h
              subst hs2
              exact ⟨id, cur, hreach, hg,
                Or.inr ⟨pid, hp, Or.inr ⟨n, hyp, hsg, hb⟩⟩⟩
            · rw [if_neg hb] at h
              cases hstep : completeParentStep vcs n now s pid hyp.depth with
              | mk rs ss =>
                cases rs with
                | error e =>
                  simp only [hstep] at h
                  rw [Prod.mk.injEq] at h
                  obtain ⟨hres, hs2⟩ := h
                  exact absurd (hres.trans hok) (by simp)
                | ok u =>
                  cases u
                  simp only [hstep] at h
                  have hreach2 : BubbleReach vcs now s0 id0 ss pid :=
                    .step hreach hg hp (by simpa using hpc) hsg
                      (by simpa using hb) hstep
                  exact ih ss pid res s2 h hok s0 id0 hreach2

/-- C6.
Claim: the bubble-up pass never auto-completes a parent that has pending
children or is effectively blocked, a parent auto-completes exactly when it
passes both tests, and the walk stops at the first failing parent or at the
forest root.  The reach relation certifies that every parent the successful
walk completed had, at that moment, no pending children and was not
effectively blocked (safety / the "only if" direction); the conclusion shows
the walk ends at the forest root or at a parent failing one of the two tests,
so it never stops short of a passing parent (the "if" direction). -/
theorem c6_bubble_safety (vcs : VcsModel) (now fuel : Nat) (s : Store)
    (id : Nat) (s2 : Store)
    (hrun : bubbleUpCompletion vcs now fuel s id = (.ok (), s2)) :
    ∃ id2 cur, BubbleReach vcs now s id s2 id2 ∧ getTask s2 id2 = some cur ∧
      (cur.parentId = none ∨
       ∃ pid, cur.parentId = some pid ∧
         (hasPendingChildren s2 pid = true ∨
          ∃ f hp, serviceGet f s2 pid = .ok hp ∧
            hp.effectivelyBlocked = true)) :=
  bubbleUp_reach_aux vcs now fuel s id (.ok ()) s2 hrun rfl s id .refl

/-- Witness for C6: bubbling up from the completed child auto-completes the
pending root and stops there. -/
theorem c6_bubble_safety_witness :
    bubbleUpCompletion vcsAllOk 7 5 w6Store 2 = (.ok (), w6Store2) ∧
    ∃ id2 cur, BubbleReach vcsAllOk 7 w6Store 2 w6Store2 id2 ∧
      getTask w6Store2 id2 = some cur ∧
      (cur.parentId = none ∨
       ∃ pid, cur.parentId = some pid ∧
         (hasPendingChildren w6Store2 pid = true ∨
          ∃ f hp, serviceGet f w6Store2 pid = .ok hp ∧
            hp.effectivelyBlocked = true)) :=
  ⟨by decide, c6_bubble_safety vcsAllOk 7 5 w6Store 2 w6Store2 (by decide)⟩

end Overseer
